import Mathlib

/-!
Verification of the incremental conversation synchronization engine of the
`obsidian-chatgpt-import` plugin (src/main.ts).

Document texts, paths, identifiers and titles are modelled as `List Char`
(`Str`), so that every text operation of the source (prefix tests, suffix
tests, substring scans, line splitting) is an executable list function.
The host services (vault, folder creation, notices) are modelled by explicit
state passing; operations of the host that can throw are driven by boolean
oracles in a `Ctx` value, mirroring which call sites of the source sit inside
a `try`.  String literals of the source are kept verbatim except that quote
characters around interpolated names are dropped.
-/

set_option maxRecDepth 4096

abbrev Str := List Char

def str (s : String) : Str := s.data

/-- Decimal digit character, `48 + n` is the code of the digit `n`. -/
def digitChar (n : Nat) : Char := Char.ofNat (48 + n)

/-- Decimal representation of a natural number as characters; the fuel
argument (any value above the digit count) keeps the recursion structural. -/
def natCharsAux : Nat → Nat → Str
  | 0, _ => []
  | fuel + 1, n =>
      if n < 10 then [digitChar n] else natCharsAux fuel (n / 10) ++ [digitChar (n % 10)]

def natChars (n : Nat) : Str := natCharsAux (n + 1) n

theorem digitChar_mem_digits : ∀ k, k < 10 → digitChar k ∈ str "0123456789" := by decide

theorem natCharsAux_digits (fuel : Nat) :
    ∀ n, ∀ c ∈ natCharsAux fuel n, c ∈ str "0123456789" := by
  induction fuel with
  | zero => intro n c hc; simp [natCharsAux] at hc
  | succ fuel ih =>
      intro n c hc
      rw [natCharsAux] at hc
      split at hc
      · rename_i h
        simp only [List.mem_singleton] at hc
        subst hc
        exact digitChar_mem_digits n h
      · rename_i h
        rcases List.mem_append.mp hc with h1 | h2
        · exact ih _ c h1
        · simp only [List.mem_singleton] at h2
          subst h2
          exact digitChar_mem_digits _ (Nat.mod_lt _ (by omega))

theorem natChars_digits (n : Nat) : ∀ c ∈ natChars n, c ∈ str "0123456789" :=
  natCharsAux_digits (n + 1) n

theorem digits_tame : ∀ c ∈ str "0123456789", c ≠ '<' ∧ c ≠ '\n' ∧ c ≠ ' ' := by decide

/-- Splitting a text at newline characters, like JavaScript `split('\n')`:
the result is nonempty and the pieces carry no newline. -/
def splitLines : Str → List Str
  | [] => [[]]
  | c :: r =>
      if c = '\n' then [] :: splitLines r
      else
        match splitLines r with
        | [] => [[c]]
        | l :: ls => (c :: l) :: ls

def joinLines (ls : List Str) : Str := List.intercalate ['\n'] ls

theorem splitLines_ne_nil (s : Str) : splitLines s ≠ [] := by
  match s with
  | [] => simp [splitLines]
  | c :: r =>
      rw [splitLines]
      split
      · simp
      · split <;> simp

theorem joinLines_splitLines (s : Str) : joinLines (splitLines s) = s := by
  induction s with
  | nil => simp [splitLines, joinLines, List.intercalate]
  | cons c r ih =>
      rw [splitLines]
      split
      · rename_i hc
        subst hc
        rw [joinLines, List.intercalate] at ih ⊢
        cases h : splitLines r with
        | nil => exact absurd h (splitLines_ne_nil r)
        | cons l ls =>
            rw [h] at ih
            simp only [List.intersperse, List.join] at ih ⊢
            simp [ih]
      · cases h : splitLines r with
        | nil => exact absurd h (splitLines_ne_nil r)
        | cons l ls =>
            rw [h] at ih
            rw [joinLines, List.intercalate] at ih ⊢
            cases ls with
            | nil => simpa using ih
            | cons l2 ls2 =>
                simp only [List.intersperse, List.join] at ih ⊢
                simpa using ih

theorem splitLines_no_newline (s : Str) : ∀ l ∈ splitLines s, '\n' ∉ l := by
  induction s with
  | nil => simp [splitLines]
  | cons c r ih =>
      rw [splitLines]
      split
      · intro l hl
        rcases List.mem_cons.mp hl with h | h
        · subst h; simp
        · exact ih l h
      · rename_i hc
        cases h : splitLines r with
        | nil => exact absurd h (splitLines_ne_nil r)
        | cons l0 ls =>
            intro l hl
            rcases List.mem_cons.mp hl with h1 | h1
            · subst h1
              intro hmem
              rcases List.mem_cons.mp hmem with h2 | h2
              · exact hc h2.symm
              · exact ih l0 (h ▸ List.mem_cons_self _ _) h2
            · exact ih l (h ▸ List.mem_cons_of_mem _ h1)

theorem mem_of_mem_splitLines (s : Str) : ∀ l ∈ splitLines s, ∀ c ∈ l, c ∈ s := by
  induction s with
  | nil => simp [splitLines]
  | cons a r ih =>
      rw [splitLines]
      split
      · intro l hl c hc
        rcases List.mem_cons.mp hl with h | h
        · subst h; simp at hc
        · exact List.mem_cons_of_mem _ (ih l h c hc)
      · cases h : splitLines r with
        | nil => exact absurd h (splitLines_ne_nil r)
        | cons l0 ls =>
            intro l hl c hc
            rcases List.mem_cons.mp hl with h1 | h1
            · subst h1
              rcases List.mem_cons.mp hc with h2 | h2
              · subst h2; exact List.mem_cons_self _ _
              · exact List.mem_cons_of_mem _ (ih l0 (h ▸ List.mem_cons_self _ _) c h2)
            · exact List.mem_cons_of_mem _ (ih l (h ▸ List.mem_cons_of_mem _ h1) c hc)

theorem intercalate_single (sep x : Str) : List.intercalate sep [x] = x := by
  simp [List.intercalate, List.intersperse]

theorem intercalate_cons_cons (sep x y : Str) (ys : List Str) :
    List.intercalate sep (x :: y :: ys) = x ++ sep ++ List.intercalate sep (y :: ys) := by
  simp [List.intercalate, List.intersperse, List.append_assoc]

theorem mem_of_mem_intercalate (sep : Str) (xs : List Str) :
    ∀ c ∈ List.intercalate sep xs, c ∈ sep ∨ ∃ x ∈ xs, c ∈ x := by
  induction xs with
  | nil => simp [List.intercalate]
  | cons x xs ih =>
      cases xs with
      | nil =>
          intro c hc
          rw [intercalate_single] at hc
          exact Or.inr ⟨x, List.mem_cons_self _ _, hc⟩
      | cons y ys =>
          intro c hc
          rw [intercalate_cons_cons] at hc
          rcases List.mem_append.mp hc with h | h
          · rcases List.mem_append.mp h with h1 | h1
            · exact Or.inr ⟨x, List.mem_cons_self _ _, h1⟩
            · exact Or.inl h1
          · rcases ih c h with h2 | ⟨z, hz, hcz⟩
            · exact Or.inl h2
            · exact Or.inr ⟨z, List.mem_cons_of_mem _ hz, hcz⟩

/-- Association-list lookup, modelling access to a JavaScript object keyed by
strings (`records[id]`). -/
def lookupRec {α : Type} : List (Str × α) → Str → Option α
  | [], _ => none
  | (k, v) :: r, key => if k = key then some v else lookupRec r key

/-- Association-list update, modelling JavaScript property assignment
(`records[id] = v`): an existing key keeps its position, a new key is
appended. -/
def upsertRec {α : Type} : List (Str × α) → Str → α → List (Str × α)
  | [], key, v => [(key, v)]
  | (k, w) :: r, key, v =>
      if k = key then (k, v) :: r else (k, w) :: upsertRec r key v

theorem lookupRec_upsertRec_self {α : Type} (l : List (Str × α)) (key : Str) (v : α) :
    lookupRec (upsertRec l key v) key = some v := by
  induction l with
  | nil => simp [upsertRec, lookupRec]
  | cons p r ih =>
      obtain ⟨k, w⟩ := p
      rw [upsertRec]
      split
      · rename_i h
        rw [lookupRec, if_pos h]
      · rename_i h
        rw [lookupRec, if_neg h]
        exact ih

theorem lookupRec_upsertRec_ne {α : Type} (l : List (Str × α)) (key key' : Str) (v : α)
    (h : key ≠ key') :
    lookupRec (upsertRec l key v) key' = lookupRec l key' := by
  induction l with
  | nil => simp [upsertRec, lookupRec, h]
  | cons p r ih =>
      obtain ⟨k, w⟩ := p
      by_cases hk : k = key
      · subst hk
        rw [upsertRec, if_pos rfl, lookupRec, lookupRec, if_neg h, if_neg h]
      · rw [upsertRec, if_neg hk, lookupRec, lookupRec]
        split
        · rfl
        · exact ih

/-! ## Spec-modelled helpers from src/utils.ts (file absent from src/) -/

inductive TsKind | date | time | pfx
deriving DecidableEq

/-- Modelled from the spec: `formatTimestamp` lives in src/utils.ts, which is
not under src/.  The spec fixes only that it is a pure function converting
epoch seconds to a display string, so the decimal epoch representation is
used for all three display kinds (`date`, `time`, date prefix). -/
def formatTimestamp (t : Nat) (_k : TsKind) : Str := natChars t

/-- Modelled from the spec: `getYearMonthFolder` lives in src/utils.ts, which
is not under src/.  The spec fixes only that it derives a year-month bucket
from the creation timestamp; the calendar arithmetic is immaterial to every
claim, so a fixed-length year and month bucket is used. -/
def getYearMonthFolder (t : Nat) : Str :=
  natChars (t / 31557600) ++ str "-" ++ natChars (t % 31557600 / 2629800)

/-- Modelled from the spec: `formatTitle` lives in src/utils.ts, which is not
under src/.  The spec fixes that invalid filesystem characters are stripped
and the result is truncated to a bounded length. -/
def formatTitle (t : Str) : Str :=
  (t.filter (fun c => c ∉ str "/\\:*?\"<>|\n")).take 120

/-- A raw message as it occurs in the export: `author.role` is `none` when the
author object is missing, `parts` is `none` when the content object or its
parts array is missing. -/
structure ChatMessage where
  id : Str
  authorRole : Option Str
  create_time : Nat
  parts : Option (List Str)
deriving DecidableEq

/-- A value of the conversation `mapping` object: a node with its own `id` and
an optional `message` sub-object (spec section 6 input archive format). -/
structure MappingNode where
  id : Str
  message : Option ChatMessage
deriving DecidableEq

/-- A conversation of `conversations.json`.  The mapping is kept in object
insertion order; an empty title models an absent title (falsy in the
source). -/
structure Chat where
  id : Str
  title : Str
  create_time : Nat
  update_time : Nat
  mapping : List (Str × MappingNode)
deriving DecidableEq

/-- Modelled from the spec: `isValidMessage` lives in src/utils.ts, which is
not under src/.  Spec section 3: a message is valid iff it has a non-empty
author role association and at least one non-empty text segment. -/
def isValidMessage (m : ChatMessage) : Bool :=
  (match m.authorRole with
   | some r => !r.isEmpty
   | none => false) &&
  (match m.parts with
   | some ps => ps.any (fun p => !p.isEmpty)
   | none => false)

/-- The duck-typed view of a mapping node at the call sites of main.ts that
pass the node itself where a message is expected (`getNewMessages`, the
message counter of `createNewNote`): the node carries an `id` but no
`author`, `create_time` or `content` field, so those read as absent. -/
def nodeAsMessage (n : MappingNode) : ChatMessage :=
  { id := n.id, authorRole := none, create_time := 0, parts := none }

/-! ## Pure functions of src/main.ts -/

/-- main.ts `extractMessageUIDsFromNote` capture helper: the lazy part of the
regex `<!-- UID: (.*?) -->`.  It consumes characters until the terminator
` -->` starts, fails at a newline or the end (`.` does not match a line
terminator), and returns the capture with the rest of the input. -/
def findCapture : Str → Str → Option (Str × Str)
  | [], _ => none
  | c :: rest, acc =>
      if (str " -->").isPrefixOf (c :: rest) then some (acc.reverse, (c :: rest).drop 4)
      else if c = '\n' then none
      else findCapture rest (c :: acc)

theorem findCapture_length {s acc cap rest} (h : findCapture s acc = some (cap, rest)) :
    rest.length < s.length := by
  induction s generalizing acc with
  | nil => simp [findCapture] at h
  | cons c r ih =>
      rw [findCapture] at h
      split at h
      · have hr : rest = List.drop 3 r := by
          simpa using (congrArg (fun p => p.2) (Option.some.inj h)).symm
        subst hr
        simp only [List.length_drop, List.length_cons]
        omega
      · split at h
        · simp at h
        · exact Nat.lt_trans (ih h) (by simp)

/-- The scan of main.ts `extractMessageUIDsFromNote`, with fuel (any value at
least the text length) keeping the recursion structural: at every position
try to match a `<!-- UID: (.*?) -->` marker and collect its capture. -/
def extractUIDsAux : Nat → Str → List Str
  | 0, _ => []
  | fuel + 1, content =>
      match content with
      | [] => []
      | c :: rest =>
          if (str "<!-- UID: ").isPrefixOf (c :: rest) then
            match findCapture ((c :: rest).drop 10) [] with
            | some (cap, rest') => cap :: extractUIDsAux fuel rest'
            | none => extractUIDsAux fuel rest
          else extractUIDsAux fuel rest

/-- main.ts `extractMessageUIDsFromNote`: global scan of the text for
`<!-- UID: (.*?) -->` markers, in document order. -/
def extractMessageUIDsFromNote (content : Str) : List Str :=
  extractUIDsAux content.length content

theorem extractUIDsAux_nil (fuel : Nat) : extractUIDsAux fuel [] = [] := by
  cases fuel <;> rfl

/-- The fuel is irrelevant above the text length. -/
theorem extractUIDsAux_fuel (fuel₁ : Nat) :
    ∀ (fuel₂ : Nat) (s : Str), s.length ≤ fuel₁ → s.length ≤ fuel₂ →
      extractUIDsAux fuel₁ s = extractUIDsAux fuel₂ s := by
  induction fuel₁ with
  | zero =>
      intro fuel₂ s h1 _
      have : s = [] := List.length_eq_zero.mp (Nat.le_zero.mp h1)
      subst this
      rw [extractUIDsAux_nil, extractUIDsAux_nil]
  | succ fuel₁ ih =>
      intro fuel₂ s h1 h2
      cases s with
      | nil => rw [extractUIDsAux_nil, extractUIDsAux_nil]
      | cons c rest =>
          cases fuel₂ with
          | zero => simp at h2
          | succ fuel₂ =>
              rw [extractUIDsAux, extractUIDsAux]
              simp only [List.length_cons] at h1 h2
              split
              · cases hfc : findCapture ((c :: rest).drop 10) [] with
                | some p =>
                    obtain ⟨cap, rest'⟩ := p
                    have hlen := findCapture_length hfc
                    simp only [List.length_drop, List.length_cons] at hlen
                    show cap :: extractUIDsAux fuel₁ rest' = cap :: extractUIDsAux fuel₂ rest'
                    rw [ih fuel₂ rest' (by omega) (by omega)]
                | none =>
                    show extractUIDsAux fuel₁ rest = extractUIDsAux fuel₂ rest
                    exact ih fuel₂ rest (by omega) (by omega)
              · exact ih fuel₂ rest (by omega) (by omega)

/-- main.ts `formatMessage`: renders one message block.  `now` stands for
`Date.now() / 1000`, the fallback when `message.create_time` is falsy. -/
def formatMessage (now : Nat) (m : ChatMessage) : Str :=
  let t := if m.create_time = 0 then now else m.create_time
  let messageTime := formatTimestamp t .date ++ str " at " ++ formatTimestamp t .time
  let authorName :=
    match m.authorRole with
    | some r => if r = str "user" then str "User" else str "ChatGPT"
    | none => str "Unknown"
  let headingLevel := if authorName = str "User" then str "###" else str "####"
  let quoteChar := if authorName = str "User" then str ">" else str ">>"
  let base := headingLevel ++ str " " ++ authorName ++ str ", on " ++ messageTime ++ str ";\n"
  let body :=
    match m.parts with
    | some ps =>
        if ps.length ≠ 0 then
          List.intercalate (str "\n")
            ((splitLines (List.intercalate (str "\n") ps)).map
              (fun line => quoteChar ++ str " " ++ line))
        else quoteChar ++ str " [No content]"
    | none => quoteChar ++ str " [No content]"
  let uid := if m.id.isEmpty then str "unknown" else m.id
  let withUid := base ++ body ++ str "\n<!-- UID: " ++ uid ++ str " -->\n"
  let withSep := if authorName = str "ChatGPT" then withUid ++ str "\n---\n" else withUid
  withSep ++ str "\n\n"

/-- main.ts `generateMessagesContent` body: walk the mapping in insertion
order and render every node whose `message` sub-object is a valid message. -/
def genMsgs (now : Nat) : List (Str × MappingNode) → Str
  | [] => []
  | (_, n) :: rest =>
      (match n.message with
       | some m => if isValidMessage m then formatMessage now m else []
       | none => []) ++ genMsgs now rest

def generateMessagesContent (now : Nat) (chat : Chat) : Str := genMsgs now chat.mapping

/-- main.ts `generateHeader`. -/
def generateHeader (title conversationId createTimeStr updateTimeStr : Str) : Str :=
  str "---\naliases: " ++ title ++
  str "\nconversation_id: " ++ conversationId ++
  str "\ncreate_time: " ++ createTimeStr ++
  str "\nupdate_time: " ++ updateTimeStr ++
  str "\n---\n\n# Topic: " ++ title ++
  str "\nCreated: " ++ createTimeStr ++
  str "\nLast Updated: " ++ updateTimeStr ++ str "\n\n\n"

/-- main.ts `generateMarkdownContent`. -/
def generateMarkdownContent (now : Nat) (chat : Chat) : Str :=
  let create_time_str :=
    formatTimestamp chat.create_time .date ++ str " at " ++ formatTimestamp chat.create_time .time
  let update_time_str :=
    formatTimestamp chat.update_time .date ++ str " at " ++ formatTimestamp chat.update_time .time
  generateHeader (formatTitle chat.title) chat.id create_time_str update_time_str ++
    generateMessagesContent now chat

/-- main.ts `getNewMessages`: filters `Object.values(chat.mapping)`.  Note
that the source applies the truthiness test `message.id` and the validity
predicate to the mapping node itself, not to its `message` sub-object, so the
node is viewed through `nodeAsMessage`. -/
def getNewMessages (chat : Chat) (existingMessageIds : List Str) : List MappingNode :=
  (chat.mapping.map Prod.snd).filter
    (fun n =>
      !n.id.isEmpty && !existingMessageIds.contains n.id &&
        isValidMessage (nodeAsMessage n))

/-- main.ts `formatNewMessages`: the elements are the values produced by
`getNewMessages`, i.e. mapping nodes, rendered through the same duck-typed
view. -/
def formatNewMessages (now : Nat) (messages : List MappingNode) : Str :=
  List.intercalate (str "\n\n")
    (((messages.map (fun n => formatMessage now (nodeAsMessage n))).filter
      (fun f => !f.isEmpty)))

/-- Replace the first line satisfying `p` by `newLine`, the lines model of one
`String.replace` with a `/^label: .*$/m` regex (no global flag: first match
only; `.` spans exactly the rest of the line). -/
def replaceFirstLineAux (p : Str → Bool) (newLine : Str) : List Str → List Str
  | [] => []
  | l :: ls => if p l then newLine :: ls else l :: replaceFirstLineAux p newLine ls

def replaceFirstLine (p : Str → Bool) (newLine : Str) (content : Str) : Str :=
  joinLines (replaceFirstLineAux p newLine (splitLines content))

/-- main.ts `updateMetadata`: rewrite the first `update_time: ` line, then the
first `Last Updated: ` line, to the formatted new update time. -/
def updateMetadata (content : Str) (updateTime : Nat) : Str :=
  let updateTimeStr :=
    formatTimestamp updateTime .date ++ str " at " ++ formatTimestamp updateTime .time
  let c1 := replaceFirstLine (fun l => (str "update_time: ").isPrefixOf l)
    (str "update_time: " ++ updateTimeStr) content
  replaceFirstLine (fun l => (str "Last Updated: ").isPrefixOf l)
    (str "Last Updated: " ++ updateTimeStr) c1

/-! ## Run state and host effects -/

/-- One row of the created/updated/skipped/failed tables of the import log. -/
structure NoteEntry where
  title : Str
  filePath : Str
  createDate : Str
  updateDate : Str
deriving DecidableEq

structure SkipEntry where
  title : Str
  filePath : Str
  createDate : Str
  updateDate : Str
  reason : Str
deriving DecidableEq

structure FailEntry where
  title : Str
  filePath : Str
  createDate : Str
  updateDate : Str
  errorMessage : Str
deriving DecidableEq

/-- main.ts `ImportLog`.  The `errors` list is the source's private `errors`
field, which no method ever pushes to (only `failed` and `globalErrors`
receive entries). -/
structure ImportLog where
  created : List NoteEntry := []
  updated : List NoteEntry := []
  skipped : List SkipEntry := []
  failed : List FailEntry := []
  errors : List NoteEntry := []
  globalErrors : List (Str × Str) := []
  summary : Str := []
deriving DecidableEq

def emptyLog : ImportLog := {}

def ImportLog.addCreated (l : ImportLog) (e : NoteEntry) : ImportLog :=
  { l with created := l.created ++ [e] }

def ImportLog.addUpdated (l : ImportLog) (e : NoteEntry) : ImportLog :=
  { l with updated := l.updated ++ [e] }

def ImportLog.addSkipped (l : ImportLog) (e : SkipEntry) : ImportLog :=
  { l with skipped := l.skipped ++ [e] }

def ImportLog.addFailed (l : ImportLog) (e : FailEntry) : ImportLog :=
  { l with failed := l.failed ++ [e] }

def ImportLog.addError (l : ImportLog) (message details : Str) : ImportLog :=
  { l with globalErrors := l.globalErrors ++ [(message, details)] }

def ImportLog.addSummary (l : ImportLog) (totalExisting totalNew totalUpdated totalMessagesAdded : Nat) : ImportLog :=
  { l with summary :=
      (str "\nSummary:\n- Existing conversations: " ++ natChars totalExisting ++
        str "\n- New conversations imported: " ++ natChars totalNew ++
        str "\n- Conversations updated: " ++ natChars totalUpdated ++
        str "\n- New messages added: " ++ natChars totalMessagesAdded ++ str "\n") }

/-- main.ts `ImportLog.hasErrors`: inspects the `errors` and `failed` lists. -/
def ImportLog.hasErrors (l : ImportLog) : Bool :=
  decide (0 < l.errors.length) || decide (0 < l.failed.length)

structure ConversationRecord where
  path : Str
  updateTime : Nat
deriving DecidableEq

structure ArchiveEntry where
  fileName : Str
  date : Str
deriving DecidableEq

/-- The plugin state visible to the engine: the two persisted catalogs, the
vault (path to text of every markdown file), the run log, the notices shown
so far, and the `totalNonEmptyMessagesAdded` counter. -/
structure PState where
  conversationRecords : List (Str × ConversationRecord)
  importedArchives : List (Str × ArchiveEntry)
  vault : List (Str × Str)
  importLog : ImportLog
  notices : List Str
  msgsAdded : Nat
deriving DecidableEq

/-- Settings together with the failure oracles of the host: a `true` oracle
value at a path makes the corresponding vault operation throw there.
`now` stands for the current clock reading in epoch seconds. -/
structure Ctx where
  archiveFolder : Str
  addDatePfx : Bool
  now : Nat
  folderFails : Str → Bool
  writeFails : Str → Bool
  processFails : Str → Bool

/-- Host exception texts are opaque to the engine; fixed stand-ins. -/
def folderErrMsg : Str := str "folder creation failed"

def writeErrMsg : Str := str "write failed"

def processErrMsg : Str := str "vault.process failed"

/-- `chat.title || 'Untitled'`. -/
def titleOr (chat : Chat) : Str := if chat.title.isEmpty then str "Untitled" else chat.title

def createDateStr (chat : Chat) : Str :=
  formatTimestamp chat.create_time .date ++ str " " ++ formatTimestamp chat.create_time .time

def updateDateStr (chat : Chat) : Str :=
  formatTimestamp chat.update_time .date ++ str " " ++ formatTimestamp chat.update_time .time

/-- main.ts `getFileName`. -/
def getFileName (ctx : Ctx) (chat : Chat) : Str :=
  let fileName := formatTitle chat.title
  let fileName2 :=
    if ctx.addDatePfx then formatTimestamp chat.create_time .pfx ++ str " - " ++ fileName
    else fileName
  fileName2 ++ str ".md"

/-- The collision test of main.ts `getUniqueFileName`: some existing
conversation path contains the folder path and ends with the candidate
name. -/
def collides (existingConversations : List (Str × Str)) (folderPath potentialFileName : Str) : Bool :=
  (existingConversations.map Prod.snd).any
    (fun existingFile =>
      decide (folderPath <:+: existingFile) && decide (potentialFileName <:+ existingFile))

/-- The candidate built from `fileName.slice(0, -3)` (dropping `.md`) and a
counter. -/
def mkCandidate (fileName : Str) (counter : Nat) : Str :=
  fileName.take (fileName.length - 3) ++ str " (" ++ natChars counter ++ str ").md"

/-- The while loop of main.ts `getUniqueFileName`, with explicit fuel: test
the current candidate, and on a collision move to the next numbered
candidate.  The loop of the source always terminates because a fixed finite
path set can only end with finitely many of the pairwise distinct
candidates; the fuel below is an upper bound parameter for that search. -/
def uniqueNameLoop (existingConversations : List (Str × Str)) (folderPath fileName : Str) :
    Nat → Nat → Str → Str
  | 0, _, potential => potential
  | fuel + 1, counter, potential =>
      if collides existingConversations folderPath potential then
        uniqueNameLoop existingConversations folderPath fileName fuel (counter + 1)
          (mkCandidate fileName counter)
      else potential

def uniqueFuel (existingConversations : List (Str × Str)) : Nat :=
  (existingConversations.map (fun p => p.2.length + 1)).sum + 2

/-- main.ts `getUniqueFileName`. -/
def getUniqueFileName (ctx : Ctx) (chat : Chat) (folderPath : Str)
    (existingConversations : List (Str × Str)) : Str :=
  let fileName := getFileName ctx chat
  uniqueNameLoop existingConversations folderPath fileName
    (uniqueFuel existingConversations) 1 fileName

/-- The folder path computed by main.ts `createFolderForChat`. -/
def folderPathOf (ctx : Ctx) (chat : Chat) : Str :=
  ctx.archiveFolder ++ str "/" ++ getYearMonthFolder chat.create_time

/-- main.ts `updateConversationRecord`: unconditionally rewrites the record of
the chat with the recomputed default file name and the chat's update time. -/
def updateConversationRecord (ctx : Ctx) (chat : Chat) (folderPath : Str) (st : PState) : PState :=
  { st with conversationRecords :=
      (upsertRec st.conversationRecords chat.id
        ⟨folderPath ++ str "/" ++ getFileName ctx chat, chat.update_time⟩) }

/-- The pure callback given to `vault.process` in main.ts
`updateExistingNote`, returning the new text and the number of appended
messages. -/
def mergeCallback (now : Nat) (chat : Chat) (content : Str) : Str × Nat :=
  let existingMessageIds := extractMessageUIDsFromNote content
  let newMessages := getNewMessages chat existingMessageIds
  let content2 := updateMetadata content chat.update_time ++ formatNewMessages now newMessages
  (content2, newMessages.length)

/-- main.ts `updateExistingNote`.  When the path does not resolve to a file
the body is silently skipped (the `instanceof TFile` guard has no else
branch); when `vault.process` throws, the catch logs a global error and a
failed entry; otherwise the merged text is committed and an updated entry is
logged. -/
def updateExistingNote (ctx : Ctx) (chat : Chat) (filePath : Str) (st : PState) : PState :=
  match lookupRec st.vault filePath with
  | none => st
  | some content =>
      if ctx.processFails filePath then
        { st with importLog :=
            ((st.importLog.addError (str "Error updating existing note") processErrMsg).addFailed
              ⟨titleOr chat, filePath, createDateStr chat, updateDateStr chat, processErrMsg⟩) }
      else
        let r := mergeCallback ctx.now chat content
        { st with
            vault := upsertRec st.vault filePath r.1,
            msgsAdded := st.msgsAdded + r.2,
            importLog := st.importLog.addUpdated
              ⟨titleOr chat, filePath, createDateStr chat, updateDateStr chat⟩ }

/-- main.ts `createNewNote`; the boolean reports whether the call threw.  On a
write failure the `writeToFile` catch logs a global error and rethrows; the
`createNewNote` catch then logs a second global error, and its
`importLog.addFailed` call never runs because `filePath`, a `const` of the
`try` block, is not in scope in the catch block (a reference error replaces
the original exception and propagates). -/
def createNewNote (ctx : Ctx) (chat : Chat) (folderPath : Str)
    (existingConversations : List (Str × Str)) (st : PState) : PState × Bool :=
  let fileName := getUniqueFileName ctx chat folderPath existingConversations
  let filePath := folderPath ++ str "/" ++ fileName
  let content := generateMarkdownContent ctx.now chat
  if ctx.writeFails filePath then
    ({ st with importLog :=
        ((st.importLog.addError (str "Error creating or modifying file " ++ filePath)
          writeErrMsg).addError (str "Error creating new note") writeErrMsg) }, true)
  else
    ({ st with
        vault := upsertRec st.vault filePath content,
        importLog := st.importLog.addCreated
          ⟨titleOr chat, filePath, createDateStr chat, updateDateStr chat⟩ }, false)

/-- main.ts `handleExistingChat`: ties count as unchanged. -/
def handleExistingChat (ctx : Ctx) (chat : Chat) (existingRecord : ConversationRecord)
    (st : PState) : PState :=
  if chat.update_time ≤ existingRecord.updateTime then
    { st with importLog :=
        (st.importLog.addSkipped
          ⟨titleOr chat, existingRecord.path, formatTimestamp chat.create_time .date,
            formatTimestamp chat.update_time .date, str "No Updates"⟩) }
  else updateExistingNote ctx chat existingRecord.path st

/-- main.ts `processSingleChat`.  A folder failure makes `createFolderForChat`
throw after `ensureFolderExists` has logged its own global error; the catch
of `processSingleChat` logs another and moves on.  Otherwise the chat is
routed on the presence of its `ConversationRecord`, and — except when
`createNewNote` threw — `updateConversationRecord` runs unconditionally. -/
def processSingleChat (ctx : Ctx) (existingConversations : List (Str × Str))
    (st : PState) (chat : Chat) : PState :=
  let folderPath := folderPathOf ctx chat
  if ctx.folderFails folderPath then
    { st with importLog :=
        ((st.importLog.addError (str "Failed to create folder: " ++ folderPath)
          folderErrMsg).addError (str "Error processing chat: " ++ titleOr chat) folderErrMsg) }
  else
    match lookupRec st.conversationRecords chat.id with
    | some existingRecord =>
        updateConversationRecord ctx chat folderPath
          (handleExistingChat ctx chat existingRecord st)
    | none =>
        let r := createNewNote ctx chat folderPath existingConversations st
        if r.2 then
          { r.1 with importLog :=
              (r.1.importLog.addError (str "Error processing chat: " ++ titleOr chat) writeErrMsg) }
        else updateConversationRecord ctx chat folderPath r.1

/-- The per-conversation loop of main.ts `processConversations`.  The
`existingConversations` argument stands for the result of
`getAllExistingConversations`, computed from the vault once before the
loop. -/
def runChats (ctx : Ctx) (existingConversations : List (Str × Str))
    (st : PState) (chats : List Chat) : PState :=
  chats.foldl (processSingleChat ctx existingConversations) st

/-- main.ts `processConversations`: the loop followed by `updateImportLog`,
which only fills the summary of the run log. -/
def processConversations (ctx : Ctx) (existingConversations : List (Str × Str))
    (st : PState) (chats : List Chat) : PState :=
  let st2 := runChats ctx existingConversations st chats
  { st2 with importLog :=
      (st2.importLog.addSummary existingConversations.length
        st2.importLog.created.length st2.importLog.updated.length st2.msgsAdded) }

/-! ## Report writing and zip handling -/

/-- JavaScript `String.trim`. -/
def trimChars (s : Str) : Str :=
  (s.dropWhile Char.isWhitespace).reverse.dropWhile Char.isWhitespace |>.reverse

/-- One row of `ImportLog.generateTable`. -/
def tableRow (emoji : Str) (e : NoteEntry) : Str :=
  str "| " ++ emoji ++ str " | [[" ++ e.filePath ++ str "\\|" ++
    trimChars (e.title.map (fun c => if c = '\n' then ' ' else c)) ++ str "]] | " ++
    e.createDate ++ str " | " ++ e.updateDate ++ str " |\n"

/-- main.ts `ImportLog.generateTable`. -/
def generateTable (title : Str) (entries : List NoteEntry) (emoji : Str) : Str :=
  str "## " ++ title ++ str "\n\n| | Title | Created | Updated |\n|---|:---|:---:|:---:|\n" ++
    (entries.map (tableRow emoji)).flatten ++ str "\n\n"

/-- One row of `ImportLog.generateErrorTable`. -/
def errorRow (emoji : Str) (e : Str × Str) : Str :=
  str "| " ++ emoji ++ str " | " ++ e.1 ++ str " | " ++ e.2 ++ str " |\n"

/-- main.ts `ImportLog.generateErrorTable`. -/
def generateErrorTable (title : Str) (entries : List (Str × Str)) (emoji : Str) : Str :=
  str "## " ++ title ++ str "\n\n| | Error | Details |\n|---|:---|:---|\n" ++
    (entries.map (errorRow emoji)).flatten ++ str "\n\n"

def skipToNote (e : SkipEntry) : NoteEntry := ⟨e.title, e.filePath, e.createDate, e.updateDate⟩

def failToNote (e : FailEntry) : NoteEntry := ⟨e.title, e.filePath, e.createDate, e.updateDate⟩

/-- main.ts `ImportLog.generateLogContent`: legend, table of contents limited
to the present sections, then one table per nonempty category. -/
def ImportLog.generateLogContent (l : ImportLog) : Str :=
  str "# ChatGPT Import Log\n\n" ++
  (if l.summary.isEmpty then [] else l.summary ++ str "\n\n") ++
  str "## Legend\n" ++
  str "✨ Created | 🔄 Updated | ⏭️ Skipped | 🚫 Failed | ⚠️ Global Errors\n\n" ++
  str "## Table of Contents\n" ++
  (if l.created.isEmpty then [] else str "- [Created Notes](#created-notes)\n") ++
  (if l.updated.isEmpty then [] else str "- [Updated Notes](#updated-notes)\n") ++
  (if l.skipped.isEmpty then [] else str "- [Skipped Notes](#skipped-notes)\n") ++
  (if l.failed.isEmpty then [] else str "- [Failed Imports](#failed-imports)\n") ++
  (if l.globalErrors.isEmpty then [] else str "- [Global Errors](#global-errors)\n") ++
  str "\n" ++
  (if l.created.isEmpty then [] else generateTable (str "Created Notes") l.created (str "✨")) ++
  (if l.updated.isEmpty then [] else generateTable (str "Updated Notes") l.updated (str "🔄")) ++
  (if l.skipped.isEmpty then []
   else generateTable (str "Skipped Notes") (l.skipped.map skipToNote) (str "⏭️")) ++
  (if l.failed.isEmpty then []
   else generateTable (str "Failed Imports") (l.failed.map failToNote) (str "🚫")) ++
  (if l.globalErrors.isEmpty then []
   else generateErrorTable (str "Global Errors") l.globalErrors (str "⚠️"))

/-- The log file body of main.ts `writeImportLog`: frontmatter, heading, zip
file name, and the rendered log content. -/
def logFileContent (ctx : Ctx) (zipFileName : Str) (l : ImportLog) : Str :=
  let currentDate := formatTimestamp ctx.now .date ++ str " " ++ formatTimestamp ctx.now .time
  str "---\nimportdate: " ++ currentDate ++
  str "\nzipFile: " ++ zipFileName ++
  str "\ntotalSuccessfulImports: " ++ natChars l.created.length ++
  str "\ntotalUpdatedImports: " ++ natChars l.updated.length ++
  str "\ntotalSkippedImports: " ++ natChars l.skipped.length ++
  str "\n---\n\n# ChatGPT Import Log\n\nImported ZIP file: " ++ zipFileName ++
  str "\n\n" ++ l.generateLogContent ++ str "\n"

/-- The `adapter.exists` loop of main.ts `writeImportLog`: starting from the
plain log name, append `-counter` until the path is free.  The loop of the
source terminates because the candidates are pairwise distinct paths and the
vault is finite; the fuel is an upper bound for that search. -/
def logPathLoop (vault : List (Str × Str)) (logFolderPath pfx : Str) : Nat → Nat → Str → Str
  | 0, _, path => path
  | fuel + 1, counter, path =>
      if (lookupRec vault path).isSome then
        logPathLoop vault logFolderPath pfx fuel (counter + 1)
          (logFolderPath ++ str "/" ++ pfx ++ str "-" ++ natChars counter ++
            str " - ChatGPT Import log.md")
      else path

def freeLogPath (vault : List (Str × Str)) (logFolderPath pfx : Str) : Str :=
  logPathLoop vault logFolderPath pfx (vault.length + 1) 1
    (logFolderPath ++ str "/" ++ pfx ++ str " - ChatGPT Import log.md")

/-- main.ts `writeImportLog`: create the logs folder, find a free log path,
and write the rendered report there; on a folder or write failure a notice is
shown and the vault is left unchanged. -/
def writeImportLog (ctx : Ctx) (zipFileName : Str) (st : PState) : PState :=
  let logFolderPath := ctx.archiveFolder ++ str "/logs"
  if ctx.folderFails logFolderPath then
    { st with
        importLog :=
          (st.importLog.addError (str "Failed to create or access log folder: " ++ logFolderPath)
            folderErrMsg),
        notices := st.notices ++ [str "Failed to create log file. Check console for details."] }
  else
    let path := freeLogPath st.vault logFolderPath (formatTimestamp ctx.now .pfx)
    if ctx.writeFails path then
      { st with
          importLog :=
            ((st.importLog.addError (str "Error creating or modifying file " ++ path)
              writeErrMsg).addError (str "Failed to write import log") writeErrMsg),
          notices := st.notices ++ [str "Failed to create log file. Check console for details."] }
    else { st with vault := upsertRec st.vault path (logFileContent ctx zipFileName st.importLog) }

/-- main.ts `validateZipFile`: the zip must contain a top-level
`conversations.json` entry; the raised `ChatGPTImportError` carries the
message `Invalid ZIP structure` (its `details` field is not consulted by any
caller). -/
def validateZipFile (entries : List Str) : Except Str Unit :=
  if (str "conversations.json") ∈ entries then Except.ok ()
  else Except.error (str "Invalid ZIP structure")

def cancelledNotice : Str := str "Import cancelled."

def errorNotice : Str :=
  str "An error occurred during import. Please check the log file for details."

def successNotice : Str := str "Import completed. Log file created in the archive folder."

/-- main.ts `handleZipFile`.  `hash` stands for the SHA-256 fingerprint of the
file bytes, `entries` for the zip entry names, `chats` for the parse of
`conversations.json` (only consulted when that entry exists), `decision` for
the user's answer to the re-import dialog, and `existingConversations` for
the vault scan of `getAllExistingConversations`.  The `finally` block always
writes the report and shows exactly one terminal notice chosen by
`ImportLog.hasErrors`. -/
def handleZipFile (ctx : Ctx) (decision : Bool) (hash fileName : Str) (entries : List Str)
    (chats : List Chat) (existingConversations : List (Str × Str)) (st : PState) : PState :=
  let st0 := { st with importLog := emptyLog }
  let st1 :=
    if (lookupRec st0.importedArchives hash).isSome && !decision then
      { st0 with notices := st0.notices ++ [cancelledNotice] }
    else
      match validateZipFile entries with
      | Except.error e =>
          { st0 with importLog := st0.importLog.addError (str "Error handling zip file") e }
      | Except.ok _ =>
          let st2 := processConversations ctx existingConversations st0 chats
          { st2 with importedArchives :=
              (upsertRec st2.importedArchives hash
                ⟨fileName, formatTimestamp ctx.now .date⟩) }
  let st3 := writeImportLog ctx fileName st1
  { st3 with notices :=
      (st3.notices ++ [if st3.importLog.hasErrors then errorNotice else successNotice]) }

/-! ## Behaviour of the per-conversation step -/

theorem updateExistingNote_records (ctx : Ctx) (chat : Chat) (filePath : Str) (st : PState) :
    (updateExistingNote ctx chat filePath st).conversationRecords = st.conversationRecords := by
  rw [updateExistingNote]
  cases lookupRec st.vault filePath with
  | none => rfl
  | some content =>
      simp only
      split
      · rfl
      · rfl

theorem createNewNote_records (ctx : Ctx) (chat : Chat) (folderPath : Str)
    (ex : List (Str × Str)) (st : PState) :
    (createNewNote ctx chat folderPath ex st).1.conversationRecords = st.conversationRecords := by
  rw [createNewNote]
  split
  · rfl
  · rfl

theorem handleExistingChat_records (ctx : Ctx) (chat : Chat) (r : ConversationRecord)
    (st : PState) :
    (handleExistingChat ctx chat r st).conversationRecords = st.conversationRecords := by
  rw [handleExistingChat]
  split
  · rfl
  · exact updateExistingNote_records ctx chat r.path st

/-- After a step on `chat`, the record of every other conversation is
unchanged, whatever the failure oracles say. -/
theorem processSingleChat_records_other (ctx : Ctx) (ex : List (Str × Str)) (st : PState)
    (chat : Chat) (id' : Str) (hne : id' ≠ chat.id) :
    lookupRec (processSingleChat ctx ex st chat).conversationRecords id' =
      lookupRec st.conversationRecords id' := by
  rw [processSingleChat]
  split
  · rfl
  · cases h : lookupRec st.conversationRecords chat.id with
    | some r =>
        simp only [updateConversationRecord]
        rw [lookupRec_upsertRec_ne _ _ _ _ (Ne.symm hne), handleExistingChat_records]
    | none =>
        simp only
        split
        · rw [createNewNote_records]
        · simp only [updateConversationRecord]
          rw [lookupRec_upsertRec_ne _ _ _ _ (Ne.symm hne), createNewNote_records]

/-- Under failure-free oracles, a step on `chat` always ends in
`updateConversationRecord`: afterwards the record of `chat` holds the
recomputed default path and the chat's update time. -/
theorem processSingleChat_records_self (ctx : Ctx) (ex : List (Str × Str)) (st : PState)
    (chat : Chat) (hf : ∀ p, ctx.folderFails p = false) (hw : ∀ p, ctx.writeFails p = false) :
    lookupRec (processSingleChat ctx ex st chat).conversationRecords chat.id =
      some ⟨folderPathOf ctx chat ++ str "/" ++ getFileName ctx chat, chat.update_time⟩ := by
  rw [processSingleChat]
  simp only [hf, Bool.false_eq_true, if_false]
  cases h : lookupRec st.conversationRecords chat.id with
  | some r =>
      simp only [updateConversationRecord]
      rw [lookupRec_upsertRec_self]
  | none =>
      simp only [createNewNote, hw, Bool.false_eq_true, if_false]
      simp only [updateConversationRecord]
      rw [lookupRec_upsertRec_self]

/-- The unchanged case: a record at least as new as the chat produces exactly
one skipped entry with reason `No Updates` and the record rewrite — nothing
else changes. -/
theorem processSingleChat_skip (ctx : Ctx) (ex : List (Str × Str)) (st : PState) (chat : Chat)
    (hf : ctx.folderFails (folderPathOf ctx chat) = false) (r : ConversationRecord)
    (hrec : lookupRec st.conversationRecords chat.id = some r)
    (hle : chat.update_time ≤ r.updateTime) :
    processSingleChat ctx ex st chat =
      { st with
          conversationRecords :=
            (upsertRec st.conversationRecords chat.id
              ⟨folderPathOf ctx chat ++ str "/" ++ getFileName ctx chat, chat.update_time⟩),
          importLog :=
            (st.importLog.addSkipped
              ⟨titleOr chat, r.path, formatTimestamp chat.create_time .date,
                formatTimestamp chat.update_time .date, str "No Updates"⟩) } := by
  rw [processSingleChat]
  simp only [hf, Bool.false_eq_true, if_false, hrec]
  rw [handleExistingChat, if_pos hle]
  rfl

theorem runChats_nil (ctx : Ctx) (ex : List (Str × Str)) (st : PState) :
    runChats ctx ex st [] = st := rfl

theorem runChats_cons (ctx : Ctx) (ex : List (Str × Str)) (st : PState) (c : Chat)
    (cs : List Chat) :
    runChats ctx ex st (c :: cs) = runChats ctx ex (processSingleChat ctx ex st c) cs := rfl

theorem runChats_records_other (ctx : Ctx) (ex : List (Str × Str)) (chats : List Chat)
    (st : PState) (id' : Str) (h : id' ∉ chats.map Chat.id) :
    lookupRec (runChats ctx ex st chats).conversationRecords id' =
      lookupRec st.conversationRecords id' := by
  induction chats generalizing st with
  | nil => rfl
  | cons c cs ih =>
      rw [runChats_cons]
      simp only [List.map_cons, List.mem_cons, not_or] at h
      rw [ih _ h.2, processSingleChat_records_other ctx ex st c id' h.1]

/-- After a failure-free run, every processed conversation has a record
holding exactly its update time. -/
theorem runChats_success_records (ctx : Ctx) (ex : List (Str × Str)) (chats : List Chat)
    (st : PState) (hf : ∀ p, ctx.folderFails p = false) (hw : ∀ p, ctx.writeFails p = false)
    (hnodup : (chats.map Chat.id).Nodup) :
    ∀ c ∈ chats, lookupRec (runChats ctx ex st chats).conversationRecords c.id =
      some ⟨folderPathOf ctx c ++ str "/" ++ getFileName ctx c, c.update_time⟩ := by
  induction chats generalizing st with
  | nil => simp
  | cons c cs ih =>
      simp only [List.map_cons, List.nodup_cons] at hnodup
      intro c' hc'
      rcases List.mem_cons.mp hc' with h1 | h1
      · subst h1
        rw [runChats_cons, runChats_records_other ctx ex cs _ c'.id hnodup.1]
        exact processSingleChat_records_self ctx ex st c' hf hw
      · rw [runChats_cons]
        exact ih _ hnodup.2 c' h1

/-- A run over conversations whose records are all at least as new as the
archive copies only appends `No Updates` skip entries: nothing is created,
updated or failed, and the vault is untouched. -/
theorem runChats_all_skip (ctx : Ctx) (ex : List (Str × Str)) (chats : List Chat) (st : PState)
    (hf : ∀ p, ctx.folderFails p = false)
    (hnodup : (chats.map Chat.id).Nodup)
    (hrec : ∀ c ∈ chats, ∃ r, lookupRec st.conversationRecords c.id = some r ∧
      c.update_time ≤ r.updateTime) :
    (runChats ctx ex st chats).importLog.created = st.importLog.created ∧
    (runChats ctx ex st chats).importLog.updated = st.importLog.updated ∧
    (runChats ctx ex st chats).importLog.failed = st.importLog.failed ∧
    (runChats ctx ex st chats).importLog.globalErrors = st.importLog.globalErrors ∧
    (runChats ctx ex st chats).vault = st.vault ∧
    (runChats ctx ex st chats).importLog.skipped.map SkipEntry.reason =
      st.importLog.skipped.map SkipEntry.reason ++
        List.replicate chats.length (str "No Updates") := by
  induction chats generalizing st with
  | nil => simp [runChats_nil]
  | cons c cs ih =>
      simp only [List.map_cons, List.nodup_cons] at hnodup
      obtain ⟨r, hr, hle⟩ := hrec c (List.mem_cons_self _ _)
      rw [runChats_cons, processSingleChat_skip ctx ex st c (hf _) r hr hle]
      have hrec' : ∀ c' ∈ cs, ∃ r', lookupRec
          (upsertRec st.conversationRecords c.id
            ⟨folderPathOf ctx c ++ str "/" ++ getFileName ctx c, c.update_time⟩) c'.id =
            some r' ∧ c'.update_time ≤ r'.updateTime := by
        intro c' hc'
        have hne : c.id ≠ c'.id := by
          intro h
          exact hnodup.1 (h ▸ List.mem_map_of_mem Chat.id hc')
        rw [lookupRec_upsertRec_ne _ _ _ _ hne]
        exact hrec c' (List.mem_cons_of_mem _ hc')
      obtain ⟨h1, h2, h3, h4, h5, h6⟩ :=
        ih ({ st with
              conversationRecords :=
                (upsertRec st.conversationRecords c.id
                  ⟨folderPathOf ctx c ++ str "/" ++ getFileName ctx c, c.update_time⟩),
              importLog :=
                (st.importLog.addSkipped
                  ⟨titleOr c, r.path, formatTimestamp c.create_time .date,
                    formatTimestamp c.update_time .date, str "No Updates"⟩) })
          hnodup.2 (fun c' hc' => hrec' c' hc')
      refine ⟨by simpa [ImportLog.addSkipped] using h1, by simpa [ImportLog.addSkipped] using h2,
        by simpa [ImportLog.addSkipped] using h3, by simpa [ImportLog.addSkipped] using h4,
        by simpa using h5, ?_⟩
      rw [h6]
      simp [ImportLog.addSkipped, List.replicate_succ, List.append_assoc]

theorem processConversations_log (ctx : Ctx) (ex : List (Str × Str)) (st : PState)
    (chats : List Chat) :
    (processConversations ctx ex st chats).importLog.created =
      (runChats ctx ex st chats).importLog.created ∧
    (processConversations ctx ex st chats).importLog.updated =
      (runChats ctx ex st chats).importLog.updated ∧
    (processConversations ctx ex st chats).importLog.failed =
      (runChats ctx ex st chats).importLog.failed ∧
    (processConversations ctx ex st chats).importLog.skipped =
      (runChats ctx ex st chats).importLog.skipped ∧
    (processConversations ctx ex st chats).vault = (runChats ctx ex st chats).vault ∧
    (processConversations ctx ex st chats).conversationRecords =
      (runChats ctx ex st chats).conversationRecords := by
  exact ⟨rfl, rfl, rfl, rfl, rfl, rfl⟩

/-- C1: running synchronization twice over the same archive, with a
failure-free host, yields a second run that creates no document, performs no
merge and does not touch the vault: every conversation is classified
unchanged and skipped with reason `No Updates`, because its stored record
update time equals the conversation's update time after the first run. -/
theorem C1_second_run_idempotent (ctx : Ctx) (chats : List Chat) (st0 : PState)
    (ex1 ex2 : List (Str × Str))
    (hf : ∀ p, ctx.folderFails p = false) (hw : ∀ p, ctx.writeFails p = false)
    (hnodup : (chats.map Chat.id).Nodup) :
    (processConversations ctx ex2
        { processConversations ctx ex1 { st0 with importLog := emptyLog } chats with
          importLog := emptyLog } chats).importLog.created = [] ∧
    (processConversations ctx ex2
        { processConversations ctx ex1 { st0 with importLog := emptyLog } chats with
          importLog := emptyLog } chats).importLog.updated = [] ∧
    (processConversations ctx ex2
        { processConversations ctx ex1 { st0 with importLog := emptyLog } chats with
          importLog := emptyLog } chats).importLog.failed = [] ∧
    (processConversations ctx ex2
        { processConversations ctx ex1 { st0 with importLog := emptyLog } chats with
          importLog := emptyLog } chats).vault =
      (processConversations ctx ex1 { st0 with importLog := emptyLog } chats).vault ∧
    (processConversations ctx ex2
        { processConversations ctx ex1 { st0 with importLog := emptyLog } chats with
          importLog := emptyLog } chats).importLog.skipped.map SkipEntry.reason =
      List.replicate chats.length (str "No Updates") := by
  set st1 := processConversations ctx ex1 { st0 with importLog := emptyLog } chats with hst1
  have hrec : ∀ c ∈ chats, ∃ r,
      lookupRec ({ st1 with importLog := emptyLog } : PState).conversationRecords c.id = some r ∧
        c.update_time ≤ r.updateTime := by
    intro c hc
    refine ⟨⟨folderPathOf ctx c ++ str "/" ++ getFileName ctx c, c.update_time⟩, ?_, le_refl _⟩
    show lookupRec st1.conversationRecords c.id = _
    rw [hst1, (processConversations_log ctx ex1 _ chats).2.2.2.2.2]
    exact runChats_success_records ctx ex1 chats _ hf hw hnodup c hc
  obtain ⟨h1, h2, h3, h4, h5, h6⟩ :=
    runChats_all_skip ctx ex2 chats { st1 with importLog := emptyLog } hf hnodup hrec
  obtain ⟨g1, g2, g3, g4, g5, g6⟩ :=
    processConversations_log ctx ex2 ({ st1 with importLog := emptyLog }) chats
  refine ⟨?_, ?_, ?_, ?_, ?_⟩ <;>
    simp only [g1, g2, g3, g4, g5, h1, h2, h3, h4, h5, h6] <;>
    simp [emptyLog]

/-! ## Concrete fixtures -/

def ctx0 : Ctx :=
  { archiveFolder := str "A", addDatePfx := false, now := 0,
    folderFails := fun _ => false, writeFails := fun _ => false,
    processFails := fun _ => false }

def msg0 : ChatMessage :=
  { id := str "m1", authorRole := some (str "user"), create_time := 5, parts := some [str "hi"] }

def chat0 : Chat :=
  { id := str "c1", title := str "T", create_time := 1, update_time := 2,
    mapping := [(str "m1", { id := str "m1", message := some msg0 })] }

def st0 : PState :=
  { conversationRecords := [], importedArchives := [], vault := [], importLog := emptyLog,
    notices := [], msgsAdded := 0 }

theorem C1_second_run_idempotent_witness :
    (processConversations ctx0 []
        { processConversations ctx0 [] { st0 with importLog := emptyLog } [chat0] with
          importLog := emptyLog } [chat0]).importLog.created = [] ∧
    (processConversations ctx0 []
        { processConversations ctx0 [] { st0 with importLog := emptyLog } [chat0] with
          importLog := emptyLog } [chat0]).importLog.updated = [] ∧
    (processConversations ctx0 []
        { processConversations ctx0 [] { st0 with importLog := emptyLog } [chat0] with
          importLog := emptyLog } [chat0]).importLog.failed = [] ∧
    (processConversations ctx0 []
        { processConversations ctx0 [] { st0 with importLog := emptyLog } [chat0] with
          importLog := emptyLog } [chat0]).vault =
      (processConversations ctx0 [] { st0 with importLog := emptyLog } [chat0]).vault ∧
    (processConversations ctx0 []
        { processConversations ctx0 [] { st0 with importLog := emptyLog } [chat0] with
          importLog := emptyLog } [chat0]).importLog.skipped.map SkipEntry.reason =
      List.replicate 1 (str "No Updates") :=
  C1_second_run_idempotent ctx0 [chat0] st0 [] [] (fun _ => rfl) (fun _ => rfl) (by decide)

/-- C3: classification of a conversation against its stored record.  With the
chat's folder available: no record means `createNewNote` runs (a created
entry is logged and the rendered document is written); a record at least as
new means the chat is skipped with reason `No Updates` and nothing is
written; a strictly older record means the merge (`updateExistingNote`) is
invoked on the recorded path, followed by the record rewrite. -/
theorem C3_classification (ctx : Ctx) (ex : List (Str × Str)) (st : PState) (chat : Chat)
    (hf : ctx.folderFails (folderPathOf ctx chat) = false) :
    (lookupRec st.conversationRecords chat.id = none →
      ctx.writeFails (folderPathOf ctx chat ++ str "/" ++
        getUniqueFileName ctx chat (folderPathOf ctx chat) ex) = false →
      (processSingleChat ctx ex st chat).importLog.created =
        st.importLog.created ++
          [⟨titleOr chat,
            folderPathOf ctx chat ++ str "/" ++
              getUniqueFileName ctx chat (folderPathOf ctx chat) ex,
            createDateStr chat, updateDateStr chat⟩] ∧
      (processSingleChat ctx ex st chat).vault =
        upsertRec st.vault
          (folderPathOf ctx chat ++ str "/" ++
            getUniqueFileName ctx chat (folderPathOf ctx chat) ex)
          (generateMarkdownContent ctx.now chat)) ∧
    (∀ r, lookupRec st.conversationRecords chat.id = some r →
      chat.update_time ≤ r.updateTime →
      (processSingleChat ctx ex st chat).importLog.skipped =
        st.importLog.skipped ++
          [⟨titleOr chat, r.path, formatTimestamp chat.create_time .date,
            formatTimestamp chat.update_time .date, str "No Updates"⟩] ∧
      (processSingleChat ctx ex st chat).vault = st.vault ∧
      (processSingleChat ctx ex st chat).importLog.created = st.importLog.created ∧
      (processSingleChat ctx ex st chat).importLog.updated = st.importLog.updated) ∧
    (∀ r, lookupRec st.conversationRecords chat.id = some r →
      r.updateTime < chat.update_time →
      processSingleChat ctx ex st chat =
        updateConversationRecord ctx chat (folderPathOf ctx chat)
          (updateExistingNote ctx chat r.path st)) := by
  refine ⟨?_, ?_, ?_⟩
  · intro hnone hw
    rw [processSingleChat]
    simp only [hf, Bool.false_eq_true, if_false, hnone]
    simp only [createNewNote, hw, Bool.false_eq_true, if_false]
    simp only [updateConversationRecord, ImportLog.addCreated]
    exact ⟨by trivial, by trivial⟩
  · intro r hr hle
    rw [processSingleChat_skip ctx ex st chat hf r hr hle]
    simp [ImportLog.addSkipped]
  · intro r hr hlt
    rw [processSingleChat]
    simp only [hf, Bool.false_eq_true, if_false, hr]
    rw [handleExistingChat, if_neg (by omega)]

theorem C3_classification_witness :
    (processSingleChat ctx0 []
        { st0 with conversationRecords := [(str "c1", ⟨str "P", 5⟩)] }
        chat0).importLog.skipped.map SkipEntry.reason = [str "No Updates"] ∧
    (processSingleChat ctx0 []
        { st0 with conversationRecords := [(str "c1", ⟨str "P", 5⟩)] } chat0).vault = [] := by
  have h := (C3_classification ctx0 []
    { st0 with conversationRecords := [(str "c1", ⟨str "P", 5⟩)] } chat0 rfl).2.1
    ⟨str "P", 5⟩ (by decide) (by decide)
  refine ⟨?_, ?_⟩
  · rw [h.1]
    decide
  · exact h.2.1.trans rfl

/-! ## Collision-free naming (getUniqueFileName) -/

theorem uniqueNameLoop_least (existing : List (Str × Str)) (folderPath fileName : Str) :
    ∀ (fuel k n : Nat), k ≤ n → n < k + fuel →
      (∀ j, k ≤ j → j < n → collides existing folderPath (mkCandidate fileName j) = true) →
      collides existing folderPath (mkCandidate fileName n) = false →
      uniqueNameLoop existing folderPath fileName fuel (k + 1) (mkCandidate fileName k) =
        mkCandidate fileName n := by
  intro fuel
  induction fuel with
  | zero => intro k n hkn hbound _ _; omega
  | succ fuel ih =>
      intro k n hkn hbound hleast hfree
      rw [uniqueNameLoop]
      by_cases hk : k = n
      · subst hk
        rw [hfree]
        simp
      · have hklt : k < n := lt_of_le_of_ne hkn hk
        rw [hleast k (le_refl k) hklt]
        simp only [if_true]
        exact ih (k + 1) n hklt (by omega) (fun j h1 h2 => hleast j (by omega) h2) hfree

/-- C5: when the base file name collides inside the target folder, the chosen
name is the base with ` (n)` inserted before the `.md` extension for the
least positive `n` whose candidate is absent from the folder's existing-name
set, and the chosen name does not collide.  (The function is deterministic in
its arguments by construction.) -/
theorem C5_collision_least_suffix (ctx : Ctx) (chat : Chat) (folderPath : Str)
    (existing : List (Str × Str)) (n : Nat)
    (hcol : collides existing folderPath (getFileName ctx chat) = true)
    (hn1 : 1 ≤ n) (hbound : n < uniqueFuel existing)
    (hleast : ∀ j, 1 ≤ j → j < n →
      collides existing folderPath (mkCandidate (getFileName ctx chat) j) = true)
    (hfree : collides existing folderPath (mkCandidate (getFileName ctx chat) n) = false) :
    getUniqueFileName ctx chat folderPath existing = mkCandidate (getFileName ctx chat) n ∧
    collides existing folderPath (getUniqueFileName ctx chat folderPath existing) = false := by
  have hmain : getUniqueFileName ctx chat folderPath existing =
      mkCandidate (getFileName ctx chat) n := by
    rw [getUniqueFileName]
    have hfuel : uniqueFuel existing =
        ((existing.map (fun p => p.2.length + 1)).sum + 1) + 1 := by
      rw [uniqueFuel]
    rw [hfuel, uniqueNameLoop, hcol]
    simp only [if_true]
    exact uniqueNameLoop_least existing folderPath (getFileName ctx chat)
      ((existing.map (fun p => p.2.length + 1)).sum + 1) 1 n hn1
      (by rw [uniqueFuel] at hbound; omega) hleast hfree
  exact ⟨hmain, by rw [hmain]; exact hfree⟩

theorem C5_collision_least_suffix_witness :
    getUniqueFileName ctx0 chat0 (str "A/0-0") [(str "c9", str "A/0-0/T.md")] =
      mkCandidate (getFileName ctx0 chat0) 1 ∧
    collides [(str "c9", str "A/0-0/T.md")] (str "A/0-0")
      (getUniqueFileName ctx0 chat0 (str "A/0-0") [(str "c9", str "A/0-0/T.md")]) = false :=
  C5_collision_least_suffix ctx0 chat0 (str "A/0-0") [(str "c9", str "A/0-0/T.md")] 1
    (by decide) (by decide) (by decide) (fun j h1 h2 => by omega) (by decide)

/-! ## Metadata rewrite (updateMetadata) -/

theorem set_oob {α : Type} : ∀ (l : List α) (i : Nat) (v : α), l.length ≤ i → l.set i v = l
  | [], _, _, _ => rfl
  | a :: l, 0, v, h => by simp at h
  | a :: l, i + 1, v, h => by
      simp only [List.set]
      rw [set_oob l i v (by simpa using h)]

theorem get?_set_self {α : Type} :
    ∀ (l : List α) (i : Nat) (v : α), i < l.length → (l.set i v).get? i = some v
  | [], i, v, h => by simp at h
  | a :: l, 0, v, _ => rfl
  | a :: l, i + 1, v, h => by
      simp only [List.set, List.get?]
      exact get?_set_self l i v (by simpa using h)

theorem get?_set_ne {α : Type} :
    ∀ (l : List α) (i j : Nat) (v : α), i ≠ j → (l.set i v).get? j = l.get? j
  | [], _, _, _, _ => rfl
  | a :: l, 0, 0, v, h => absurd rfl h
  | a :: l, 0, j + 1, v, _ => rfl
  | a :: l, i + 1, 0, v, _ => rfl
  | a :: l, i + 1, j + 1, v, h => by
      simp only [List.set, List.get?]
      exact get?_set_ne l i j v (fun e => h (by omega))

theorem findIdx_get?_true {α : Type} (p : α → Bool) :
    ∀ (l : List α) (x : α), l.get? (List.findIdx p l) = some x → p x = true := by
  intro l
  induction l with
  | nil => intro x h; simp at h
  | cons a l ih =>
      intro x h
      rw [List.findIdx_cons] at h
      by_cases hpa : p a
      · rw [hpa] at h
        simp only [cond_true, List.get?] at h
        cases h
        exact hpa
      · rw [Bool.of_not_eq_true hpa] at h
        simp only [cond_false, List.get?] at h
        exact ih x h

theorem findIdx_set_eq {α : Type} (p : α → Bool) (v : α) (h1 : p v = false) :
    ∀ (l : List α) (i : Nat), (∀ x, l.get? i = some x → p x = false) →
      List.findIdx p (l.set i v) = List.findIdx p l := by
  intro l
  induction l with
  | nil => intro i _; rfl
  | cons a l ih =>
      intro i hp
      cases i with
      | zero =>
          have hpa : p a = false := hp a rfl
          simp only [List.set]
          rw [List.findIdx_cons, List.findIdx_cons, h1, hpa]
      | succ i =>
          simp only [List.set]
          rw [List.findIdx_cons, List.findIdx_cons]
          by_cases hpa : p a
          · rw [hpa]; rfl
          · rw [Bool.of_not_eq_true hpa]
            simp only [cond_false]
            rw [ih i (fun x hx => hp x (by simpa using hx))]

theorem replaceFirstLineAux_eq_set (p : Str → Bool) (n : Str) :
    ∀ ls : List Str, replaceFirstLineAux p n ls = ls.set (List.findIdx p ls) n := by
  intro ls
  induction ls with
  | nil => rfl
  | cons l ls ih =>
      rw [replaceFirstLineAux, List.findIdx_cons]
      by_cases hp : p l
      · rw [if_pos hp, hp]
        rfl
      · rw [if_neg hp, Bool.of_not_eq_true hp]
        simp only [cond_false, List.set]
        rw [ih]

theorem splitLines_of_no_newline (x : Str) (h : '\n' ∉ x) : splitLines x = [x] := by
  induction x with
  | nil => rfl
  | cons c r ih =>
      rw [splitLines]
      simp only [List.mem_cons, not_or] at h
      rw [if_neg (fun e => h.1 e.symm), ih h.2]

theorem splitLines_append_newline (x t : Str) (h : '\n' ∉ x) :
    splitLines (x ++ '\n' :: t) = x :: splitLines t := by
  induction x with
  | nil => simp [splitLines]
  | cons c r ih =>
      simp only [List.mem_cons, not_or] at h
      rw [List.cons_append, splitLines, if_neg (fun e => h.1 e.symm), ih h.2]

theorem splitLines_joinLines (ls : List Str) (hne : ls ≠ [])
    (hnl : ∀ l ∈ ls, '\n' ∉ l) : splitLines (joinLines ls) = ls := by
  induction ls with
  | nil => exact absurd rfl hne
  | cons x ls ih =>
      cases ls with
      | nil =>
          rw [joinLines, intercalate_single]
          exact splitLines_of_no_newline x (hnl x (List.mem_cons_self _ _))
      | cons y ys =>
          rw [joinLines, intercalate_cons_cons]
          have : x ++ ['\n'] ++ List.intercalate ['\n'] (y :: ys) =
              x ++ '\n' :: joinLines (y :: ys) := by
            rw [joinLines, List.append_assoc]
            rfl
          rw [this, splitLines_append_newline x _ (hnl x (List.mem_cons_self _ _))]
          rw [ih (by simp) (fun l hl => hnl l (List.mem_cons_of_mem _ hl))]

theorem splitLines_replaceFirstLine (p : Str → Bool) (n content : Str) (hn : '\n' ∉ n) :
    splitLines (replaceFirstLine p n content) =
      (splitLines content).set (List.findIdx p (splitLines content)) n := by
  rw [replaceFirstLine, replaceFirstLineAux_eq_set]
  apply splitLines_joinLines
  · intro h
    have := congrArg List.length h
    simp only [List.length_set, List.length_nil] at this
    exact splitLines_ne_nil content (List.length_eq_zero.mp this)
  · intro l hl
    rcases List.mem_or_eq_of_mem_set hl with h1 | h1
    · exact splitLines_no_newline content l h1
    · subst h1; exact hn

def updateTimeLabel : Str → Bool := fun l => (str "update_time: ").isPrefixOf l

def lastUpdatedLabel : Str → Bool := fun l => (str "Last Updated: ").isPrefixOf l

theorem not_lastUpdated_of_updateTime (x : Str) (h : updateTimeLabel x = true) :
    lastUpdatedLabel x = false := by
  cases x with
  | nil => simp [updateTimeLabel, List.isPrefixOf, str] at h
  | cons c x' =>
      rw [updateTimeLabel, show str "update_time: " = 'u' :: str "pdate_time: " from rfl] at h
      rw [List.isPrefixOf] at h
      have hc : c = 'u' := by
        cases hcv : ('u' == c) with
        | true => exact (beq_iff_eq.mp hcv).symm
        | false => rw [hcv] at h; simp at h
      subst hc
      rw [lastUpdatedLabel, show str "Last Updated: " = 'L' :: str "ast Updated: " from rfl]
      rw [List.isPrefixOf]
      rfl

theorem timeStr_no_newline (t : Nat) (lbl : Str) (hl : '\n' ∉ lbl) :
    '\n' ∉ lbl ++ (formatTimestamp t .date ++ str " at " ++ formatTimestamp t .time) := by
  intro h
  rcases List.mem_append.mp h with h1 | h1
  · exact hl h1
  · rcases List.mem_append.mp h1 with h2 | h2
    · rcases List.mem_append.mp h2 with h3 | h3
      · exact (digits_tame _ (natChars_digits t _ h3)).2.1 rfl
      · revert h3; decide
    · exact (digits_tame _ (natChars_digits t _ h2)).2.1 rfl

/-- C10: `updateMetadata` changes at most the first line beginning with
`update_time: ` and the first line beginning with `Last Updated: `, setting
each to its label followed by the formatted new update time; the line count
and every other line are unchanged. -/
theorem C10_updateMetadata_frame (content : Str) (t : Nat) :
    (splitLines (updateMetadata content t)).length = (splitLines content).length ∧
    (∀ i, i ≠ List.findIdx updateTimeLabel (splitLines content) →
      i ≠ List.findIdx lastUpdatedLabel (splitLines content) →
      (splitLines (updateMetadata content t)).get? i = (splitLines content).get? i) ∧
    (List.findIdx updateTimeLabel (splitLines content) < (splitLines content).length →
      (splitLines (updateMetadata content t)).get?
          (List.findIdx updateTimeLabel (splitLines content)) =
        some (str "update_time: " ++
          (formatTimestamp t .date ++ str " at " ++ formatTimestamp t .time))) ∧
    (List.findIdx lastUpdatedLabel (splitLines content) < (splitLines content).length →
      (splitLines (updateMetadata content t)).get?
          (List.findIdx lastUpdatedLabel (splitLines content)) =
        some (str "Last Updated: " ++
          (formatTimestamp t .date ++ str " at " ++ formatTimestamp t .time))) := by
  have hn1 : '\n' ∉ (str "update_time: " ++
      (formatTimestamp t .date ++ str " at " ++ formatTimestamp t .time)) :=
    timeStr_no_newline t _ (by decide)
  have hn2 : '\n' ∉ (str "Last Updated: " ++
      (formatTimestamp t .date ++ str " at " ++ formatTimestamp t .time)) :=
    timeStr_no_newline t _ (by decide)
  have e0 : updateMetadata content t =
      replaceFirstLine lastUpdatedLabel
        (str "Last Updated: " ++
          (formatTimestamp t .date ++ str " at " ++ formatTimestamp t .time))
        (replaceFirstLine updateTimeLabel
          (str "update_time: " ++
            (formatTimestamp t .date ++ str " at " ++ formatTimestamp t .time)) content) := rfl
  have e1 := splitLines_replaceFirstLine updateTimeLabel
    (str "update_time: " ++
      (formatTimestamp t .date ++ str " at " ++ formatTimestamp t .time)) content hn1
  have hidx : List.findIdx lastUpdatedLabel
      ((splitLines content).set (List.findIdx updateTimeLabel (splitLines content))
        (str "update_time: " ++
          (formatTimestamp t .date ++ str " at " ++ formatTimestamp t .time))) =
      List.findIdx lastUpdatedLabel (splitLines content) := by
    apply findIdx_set_eq _ _ rfl
    intro x hx
    exact not_lastUpdated_of_updateTime x (findIdx_get?_true updateTimeLabel _ x hx)
  have e3 : splitLines (updateMetadata content t) =
      ((splitLines content).set (List.findIdx updateTimeLabel (splitLines content))
        (str "update_time: " ++
          (formatTimestamp t .date ++ str " at " ++ formatTimestamp t .time))).set
        (List.findIdx lastUpdatedLabel (splitLines content))
        (str "Last Updated: " ++
          (formatTimestamp t .date ++ str " at " ++ formatTimestamp t .time)) := by
    rw [e0, splitLines_replaceFirstLine _ _ _ hn2, e1, hidx]
  refine ⟨?_, ?_, ?_, ?_⟩
  · rw [e3]; simp [List.length_set]
  · intro i hi1 hi2
    rw [e3, get?_set_ne _ _ _ _ (fun e => hi2 e.symm), get?_set_ne _ _ _ _ (fun e => hi1 e.symm)]
  · intro hlt
    by_cases hc : List.findIdx lastUpdatedLabel (splitLines content) =
        List.findIdx updateTimeLabel (splitLines content)
    · exfalso
      have hget := List.get?_eq_get hlt
      have hp1 : updateTimeLabel ((splitLines content).get ⟨_, hlt⟩) = true :=
        findIdx_get?_true updateTimeLabel _ _ hget
      have hp2 : lastUpdatedLabel ((splitLines content).get ⟨_, hlt⟩) = true := by
        apply findIdx_get?_true lastUpdatedLabel (splitLines content)
        rw [hc]
        exact hget
      rw [not_lastUpdated_of_updateTime _ hp1] at hp2
      exact Bool.false_ne_true hp2
    · rw [e3, get?_set_ne _ _ _ _ hc, get?_set_self]
      simpa using hlt
  · intro hlt
    rw [e3, get?_set_self]
    simpa using hlt

theorem C10_updateMetadata_frame_witness :
    (splitLines (updateMetadata (str "update_time: x\nb\nLast Updated: y") 7)).get? 1 =
      (splitLines (str "update_time: x\nb\nLast Updated: y")).get? 1 ∧
    (splitLines (updateMetadata (str "update_time: x\nb\nLast Updated: y") 7)).get? 0 =
      some (str "update_time: " ++
        (formatTimestamp 7 .date ++ str " at " ++ formatTimestamp 7 .time)) ∧
    (splitLines (updateMetadata (str "update_time: x\nb\nLast Updated: y") 7)).get? 2 =
      some (str "Last Updated: " ++
        (formatTimestamp 7 .date ++ str " at " ++ formatTimestamp 7 .time)) := by
  have h := C10_updateMetadata_frame (str "update_time: x\nb\nLast Updated: y") 7
  refine ⟨h.2.1 1 (by decide) (by decide), ?_, ?_⟩
  · have := h.2.2.1 (by decide)
    simpa using this
  · have := h.2.2.2 (by decide)
    simpa using this

/-! ## Failure handling of the per-conversation step -/

/-- C4 counterexample: a merge failure (the `vault.process` call throws) is
recorded as failed, yet `processSingleChat` still rewrites the conversation's
record — the stored update time advances from 1 to the chat's 2, so the
conversation is not retried by a later run. -/
theorem C4_counterexample_merge_failure_advances_record :
    (processSingleChat
        { ctx0 with processFails := fun _ => true } []
        { st0 with conversationRecords := [(str "c1", ⟨str "P", 1⟩)],
                   vault := [(str "P", str "doc")] }
        chat0).importLog.failed.length = 1 ∧
    lookupRec (processSingleChat
        { ctx0 with processFails := fun _ => true } []
        { st0 with conversationRecords := [(str "c1", ⟨str "P", 1⟩)],
                   vault := [(str "P", str "doc")] }
        chat0).conversationRecords (str "c1") =
      some ⟨str "A/0-0/T.md", 2⟩ := by
  constructor
  · rfl
  · rfl

/-- C4 amended: each failure kind is recorded in the run log and the loop
continues (the step is total), but only folder-creation and file-write
failures leave the ConversationRecord untouched; a merge failure is followed
by the unconditional record rewrite, which advances the stored update time to
the conversation's new one. -/
theorem C4_failure_handling (ctx : Ctx) (ex : List (Str × Str)) (st : PState) (chat : Chat) :
    (ctx.folderFails (folderPathOf ctx chat) = true →
      (processSingleChat ctx ex st chat).conversationRecords = st.conversationRecords ∧
      (processSingleChat ctx ex st chat).vault = st.vault ∧
      (processSingleChat ctx ex st chat).importLog.failed = st.importLog.failed ∧
      (processSingleChat ctx ex st chat).importLog.globalErrors =
        st.importLog.globalErrors ++
          [(str "Failed to create folder: " ++ folderPathOf ctx chat, folderErrMsg),
           (str "Error processing chat: " ++ titleOr chat, folderErrMsg)]) ∧
    (ctx.folderFails (folderPathOf ctx chat) = false →
      lookupRec st.conversationRecords chat.id = none →
      ctx.writeFails (folderPathOf ctx chat ++ str "/" ++
        getUniqueFileName ctx chat (folderPathOf ctx chat) ex) = true →
      (processSingleChat ctx ex st chat).conversationRecords = st.conversationRecords ∧
      (processSingleChat ctx ex st chat).vault = st.vault ∧
      (processSingleChat ctx ex st chat).importLog.failed = st.importLog.failed ∧
      (processSingleChat ctx ex st chat).importLog.globalErrors =
        st.importLog.globalErrors ++
          [(str "Error creating or modifying file " ++
              (folderPathOf ctx chat ++ str "/" ++
                getUniqueFileName ctx chat (folderPathOf ctx chat) ex), writeErrMsg),
           (str "Error creating new note", writeErrMsg),
           (str "Error processing chat: " ++ titleOr chat, writeErrMsg)]) ∧
    (∀ r content, ctx.folderFails (folderPathOf ctx chat) = false →
      lookupRec st.conversationRecords chat.id = some r →
      r.updateTime < chat.update_time →
      lookupRec st.vault r.path = some content →
      ctx.processFails r.path = true →
      (processSingleChat ctx ex st chat).vault = st.vault ∧
      (processSingleChat ctx ex st chat).importLog.failed =
        st.importLog.failed ++
          [⟨titleOr chat, r.path, createDateStr chat, updateDateStr chat, processErrMsg⟩] ∧
      (processSingleChat ctx ex st chat).importLog.globalErrors =
        st.importLog.globalErrors ++ [(str "Error updating existing note", processErrMsg)] ∧
      lookupRec (processSingleChat ctx ex st chat).conversationRecords chat.id =
        some ⟨folderPathOf ctx chat ++ str "/" ++ getFileName ctx chat, chat.update_time⟩) := by
  refine ⟨?_, ?_, ?_⟩
  · intro hf
    rw [processSingleChat]
    simp only [hf, if_true]
    refine ⟨by trivial, by trivial, by trivial, ?_⟩
    simp [ImportLog.addError]
  · intro hf hnone hw
    rw [processSingleChat]
    simp only [hf, Bool.false_eq_true, if_false, hnone]
    simp only [createNewNote, hw, if_true]
    refine ⟨by trivial, by trivial, by trivial, ?_⟩
    simp [ImportLog.addError]
  · intro r content hf hr hlt hfile hpf
    rw [processSingleChat]
    simp only [hf, Bool.false_eq_true, if_false, hr]
    rw [handleExistingChat, if_neg (by omega)]
    rw [updateExistingNote, hfile]
    simp only [hpf, if_true]
    refine ⟨rfl, ?_, ?_, ?_⟩
    · simp [updateConversationRecord, ImportLog.addFailed, ImportLog.addError]
    · simp [updateConversationRecord, ImportLog.addFailed, ImportLog.addError]
    · simp only [updateConversationRecord]
      rw [lookupRec_upsertRec_self]

theorem C4_failure_handling_witness :
    (processSingleChat
        { ctx0 with folderFails := fun _ => true } [] st0 chat0).conversationRecords = [] ∧
    (processSingleChat
        { ctx0 with folderFails := fun _ => true } [] st0 chat0).vault = [] ∧
    (processSingleChat
        { ctx0 with folderFails := fun _ => true } [] st0 chat0).importLog.globalErrors =
      [(str "Failed to create folder: " ++ folderPathOf
          { ctx0 with folderFails := fun _ => true } chat0, folderErrMsg),
       (str "Error processing chat: " ++ titleOr chat0, folderErrMsg)] := by
  have h := (C4_failure_handling { ctx0 with folderFails := fun _ => true } [] st0 chat0).1 rfl
  exact ⟨h.1.trans rfl, h.2.1.trans rfl, h.2.2.2.trans (by rfl)⟩

/-! ## Conversation record contents after a successful create -/

/-- C9 counterexample: with one colliding pre-existing name, the document is
written at the disambiguated path `A/0-0/T (1).md`, but the record maps the
conversation to the recomputed default path `A/0-0/T.md` — which holds an
unrelated pre-existing file, not the conversation's document. -/
theorem C9_counterexample_record_path_not_written_path :
    lookupRec (processSingleChat ctx0 [(str "c9", str "A/0-0/T.md")]
        { st0 with vault := [(str "A/0-0/T.md", str "x")] }
        chat0).conversationRecords (str "c1") = some ⟨str "A/0-0/T.md", 2⟩ ∧
    lookupRec (processSingleChat ctx0 [(str "c9", str "A/0-0/T.md")]
        { st0 with vault := [(str "A/0-0/T.md", str "x")] }
        chat0).vault (str "A/0-0/T (1).md") = some (generateMarkdownContent 0 chat0) ∧
    lookupRec (processSingleChat ctx0 [(str "c9", str "A/0-0/T.md")]
        { st0 with vault := [(str "A/0-0/T.md", str "x")] }
        chat0).vault (str "A/0-0/T.md") = some (str "x") := by
  refine ⟨?_, ?_, ?_⟩ <;> rfl

/-- C9 amended: after a successful create, the record maps the conversation
to the recomputed default path `folderPath/getFileName(chat)` together with
the chat's update time, while the document itself is written at
`folderPath/getUniqueFileName(...)`; the two coincide exactly when the base
name did not collide. -/
theorem C9_record_after_create (ctx : Ctx) (ex : List (Str × Str)) (st : PState) (chat : Chat)
    (hf : ctx.folderFails (folderPathOf ctx chat) = false)
    (hw : ctx.writeFails (folderPathOf ctx chat ++ str "/" ++
      getUniqueFileName ctx chat (folderPathOf ctx chat) ex) = false)
    (hnone : lookupRec st.conversationRecords chat.id = none) :
    lookupRec (processSingleChat ctx ex st chat).conversationRecords chat.id =
      some ⟨folderPathOf ctx chat ++ str "/" ++ getFileName ctx chat, chat.update_time⟩ ∧
    lookupRec (processSingleChat ctx ex st chat).vault
        (folderPathOf ctx chat ++ str "/" ++
          getUniqueFileName ctx chat (folderPathOf ctx chat) ex) =
      some (generateMarkdownContent ctx.now chat) ∧
    (collides ex (folderPathOf ctx chat) (getFileName ctx chat) = false →
      getUniqueFileName ctx chat (folderPathOf ctx chat) ex = getFileName ctx chat) := by
  refine ⟨?_, ?_, ?_⟩
  · rw [processSingleChat]
    simp only [hf, Bool.false_eq_true, if_false, hnone]
    simp only [createNewNote, hw, Bool.false_eq_true, if_false]
    simp only [updateConversationRecord]
    rw [lookupRec_upsertRec_self]
  · rw [processSingleChat]
    simp only [hf, Bool.false_eq_true, if_false, hnone]
    simp only [createNewNote, hw, Bool.false_eq_true, if_false]
    simp only [updateConversationRecord]
    exact lookupRec_upsertRec_self _ _ _
  · intro hcol
    rw [getUniqueFileName]
    have hfuel : uniqueFuel ex = ((ex.map (fun p => p.2.length + 1)).sum + 1) + 1 := by
      rw [uniqueFuel]
    rw [hfuel, uniqueNameLoop, hcol]
    simp

theorem C9_record_after_create_witness :
    lookupRec (processSingleChat ctx0 [] st0 chat0).conversationRecords (str "c1") =
      some ⟨str "A/0-0" ++ str "/" ++ getFileName ctx0 chat0, 2⟩ ∧
    lookupRec (processSingleChat ctx0 [] st0 chat0).vault
        (str "A/0-0" ++ str "/" ++ getUniqueFileName ctx0 chat0 (str "A/0-0") []) =
      some (generateMarkdownContent 0 chat0) ∧
    getUniqueFileName ctx0 chat0 (str "A/0-0") [] = getFileName ctx0 chat0 := by
  have h := C9_record_after_create ctx0 [] st0 chat0 rfl rfl rfl
  exact ⟨h.1.trans (by rfl), h.2.1.trans (by rfl), h.2.2 (by decide)⟩

/-! ## The merge candidate set (getNewMessages) -/

/-- Modelled from the spec (section 4.3), for comparison with the source's
`getNewMessages`: the candidate set is all *valid* messages of the
conversation (the `message` sub-objects of the mapping nodes) whose
identifier is not among the already-present ones. -/
def specCandidateMessages (chat : Chat) (existingMessageIds : List Str) : List ChatMessage :=
  chat.mapping.filterMap
    (fun p => p.2.message.bind
      (fun m =>
        if isValidMessage m && !existingMessageIds.contains m.id then some m else none))

/-- C2 (code bug): `getNewMessages` applies the message-validity predicate to
the raw mapping node, which carries no author or content fields, instead of
to its `message` sub-object; on a conversation holding one fresh valid
message the code's candidate set is empty while the specified one holds that
message, so the merge rewrites the metadata but appends nothing and counts
zero messages. -/
theorem C2_candidate_set_always_empty :
    getNewMessages chat0 [] = [] ∧
    specCandidateMessages chat0 [] = [msg0] ∧
    (updateExistingNote ctx0 chat0 (str "P")
        { st0 with vault := [(str "P", str "hello")] }).msgsAdded = 0 ∧
    lookupRec (updateExistingNote ctx0 chat0 (str "P")
        { st0 with vault := [(str "P", str "hello")] }).vault (str "P") =
      some (updateMetadata (str "hello") 2) := by
  refine ⟨rfl, rfl, rfl, ?_⟩
  decide

/-! ## Terminal notification (hasErrors) -/

/-- C8 (code bug): a run over an archive without `conversations.json` records
a global error, yet the terminal notification is the success variant, because
`ImportLog.hasErrors` consults the `errors` list — which no method ever
populates — and the `failed` list, ignoring `globalErrors`. -/
theorem C8_error_notice_ignores_global_errors :
    (handleZipFile ctx0 false (str "h") (str "a.zip") [str "chat.html"] [] []
        st0).importLog.globalErrors =
      [(str "Error handling zip file", str "Invalid ZIP structure")] ∧
    (handleZipFile ctx0 false (str "h") (str "a.zip") [str "chat.html"] [] []
        st0).importLog.hasErrors = false ∧
    (handleZipFile ctx0 false (str "h") (str "a.zip") [str "chat.html"] [] []
        st0).notices = [successNotice] := by
  refine ⟨rfl, rfl, rfl⟩

/-! ## Invalid archive handling -/

theorem infix_append_left {x m : Str} (l : Str) (h : x <:+: m) : x <:+: l ++ m := by
  obtain ⟨s, t, hm⟩ := h
  exact ⟨l ++ s, t, by rw [← hm]; simp [List.append_assoc]⟩

theorem infix_append_right {x m : Str} (r : Str) (h : x <:+: m) : x <:+: m ++ r := by
  obtain ⟨s, t, hm⟩ := h
  exact ⟨s, t ++ r, by rw [← hm]; simp [List.append_assoc]⟩

theorem infix_flatten_of_mem {x : Str} {xs : List Str} (h : x ∈ xs) : x <:+: xs.flatten := by
  induction xs with
  | nil => simp at h
  | cons a xs ih =>
      rw [List.flatten_cons]
      rcases List.mem_cons.mp h with h1 | h1
      · subst h1
        exact infix_append_right _ (List.infix_refl x)
      · exact infix_append_left a (ih h1)

/-- The details text of every recorded global error appears in the rendered
log file. -/
theorem globalError_details_infix (ctx : Ctx) (z : Str) (l : ImportLog) (m d : Str)
    (h : (m, d) ∈ l.globalErrors) : d <:+: logFileContent ctx z l := by
  have hne : l.globalErrors.isEmpty = false := by
    cases hge : l.globalErrors with
    | nil => rw [hge] at h; simp at h
    | cons a t => rfl
  have hrow : d <:+: errorRow (str "⚠️") (m, d) := by
    refine ⟨str "| " ++ str "⚠️" ++ str " | " ++ m ++ str " | ", str " |\n", ?_⟩
    simp [errorRow, List.append_assoc]
  have htable : d <:+: generateErrorTable (str "Global Errors") l.globalErrors (str "⚠️") := by
    rw [generateErrorTable]
    refine infix_append_right _ (infix_append_left _ ?_)
    exact hrow.trans (infix_flatten_of_mem (List.mem_map_of_mem (errorRow (str "⚠️")) h))
  have hcontent : d <:+: l.generateLogContent := by
    rw [ImportLog.generateLogContent, hne]
    simp only [Bool.false_eq_true, if_false]
    exact infix_append_left _ htable
  rw [logFileContent]
  exact infix_append_right _ (infix_append_left _ hcontent)

theorem prefix_append_right {x y : Str} (t : Str) (h : x <+: y) : x <+: y ++ t :=
  h.trans (List.prefix_append y t)

theorem prefix_two (folder s rest : Str) : (folder ++ s) <+: folder ++ (s ++ rest) := by
  rw [← List.append_assoc]
  exact List.prefix_append _ _

theorem logPathLoop_prefix (vault : List (Str × Str)) (folder pfx : Str) :
    ∀ (fuel counter : Nat) (path : Str), (folder ++ str "/") <+: path →
      (folder ++ str "/") <+: logPathLoop vault folder pfx fuel counter path := by
  intro fuel
  induction fuel with
  | zero => intro counter path h; exact h
  | succ fuel ih =>
      intro counter path h
      rw [logPathLoop]
      split
      · apply ih
        exact prefix_append_right _ (prefix_append_right _ (prefix_append_right _
          (List.prefix_append _ _)))
      · exact h

theorem freeLogPath_prefix (vault : List (Str × Str)) (folder pfx : Str) :
    (folder ++ str "/") <+: freeLogPath vault folder pfx := by
  rw [freeLogPath]
  exact logPathLoop_prefix vault folder pfx _ _ _
    (prefix_append_right _ (List.prefix_append _ _))

theorem writeImportLog_records (ctx : Ctx) (z : Str) (s : PState) :
    (writeImportLog ctx z s).conversationRecords = s.conversationRecords := by
  simp only [writeImportLog]
  split
  · rfl
  · split
    · rfl
    · rfl

theorem writeImportLog_archives (ctx : Ctx) (z : Str) (s : PState) :
    (writeImportLog ctx z s).importedArchives = s.importedArchives := by
  simp only [writeImportLog]
  split
  · rfl
  · split
    · rfl
    · rfl

/-- `writeImportLog` touches no vault path outside the logs subfolder. -/
theorem writeImportLog_vault_frame (ctx : Ctx) (z : Str) (s : PState) (p : Str)
    (hp : ¬ ((ctx.archiveFolder ++ str "/logs") ++ str "/") <+: p) :
    lookupRec (writeImportLog ctx z s).vault p = lookupRec s.vault p := by
  simp only [writeImportLog]
  split
  · rfl
  · split
    · rfl
    · apply lookupRec_upsertRec_ne
      intro he
      apply hp
      rw [← he]
      exact freeLogPath_prefix s.vault (ctx.archiveFolder ++ str "/logs") _

/-- When the logs folder and the log write succeed, the report lands at a
path under the logs subfolder and carries the details of every recorded
global error. -/
theorem writeImportLog_report (ctx : Ctx) (z : Str) (s : PState) (m d : Str)
    (hmem : (m, d) ∈ s.importLog.globalErrors)
    (hf : ctx.folderFails (ctx.archiveFolder ++ str "/logs") = false)
    (hw : ctx.writeFails (freeLogPath s.vault (ctx.archiveFolder ++ str "/logs")
      (formatTimestamp ctx.now .pfx)) = false) :
    ∃ p content, ((ctx.archiveFolder ++ str "/logs") ++ str "/") <+: p ∧
      lookupRec (writeImportLog ctx z s).vault p = some content ∧ d <:+: content := by
  refine ⟨freeLogPath s.vault (ctx.archiveFolder ++ str "/logs") (formatTimestamp ctx.now .pfx),
    logFileContent ctx z s.importLog, ?_, ?_, ?_⟩
  · exact freeLogPath_prefix s.vault (ctx.archiveFolder ++ str "/logs") _
  · simp only [writeImportLog, hf, Bool.false_eq_true, if_false, hw]
    exact lookupRec_upsertRec_self _ _ _
  · exact globalError_details_infix ctx z s.importLog m d hmem

/-- C7: an archive whose zip lacks the top-level `conversations.json` entry
(and whose run is not cancelled at the re-import dialog) aborts before
processing any conversation: the ConversationRecord and ArchiveRecord maps
are unchanged, no vault path outside the logs subfolder is written, and —
when the report can be written — the written report contains the
`Invalid ZIP structure` failure text. -/
theorem C7_invalid_archive_aborts (ctx : Ctx) (decision : Bool) (hash fileName : Str)
    (entries : List Str) (chats : List Chat) (ex : List (Str × Str)) (st : PState)
    (hmiss : (str "conversations.json") ∉ entries)
    (hnc : ((lookupRec st.importedArchives hash).isSome && !decision) = false) :
    (handleZipFile ctx decision hash fileName entries chats ex st).conversationRecords =
      st.conversationRecords ∧
    (handleZipFile ctx decision hash fileName entries chats ex st).importedArchives =
      st.importedArchives ∧
    (∀ p, ¬ ((ctx.archiveFolder ++ str "/logs") ++ str "/") <+: p →
      lookupRec (handleZipFile ctx decision hash fileName entries chats ex st).vault p =
        lookupRec st.vault p) ∧
    (ctx.folderFails (ctx.archiveFolder ++ str "/logs") = false →
      ctx.writeFails (freeLogPath st.vault (ctx.archiveFolder ++ str "/logs")
        (formatTimestamp ctx.now .pfx)) = false →
      ∃ p content, ((ctx.archiveFolder ++ str "/logs") ++ str "/") <+: p ∧
        lookupRec (handleZipFile ctx decision hash fileName entries chats ex st).vault p =
          some content ∧
        (str "Invalid ZIP structure") <:+: content) := by
  have hval : validateZipFile entries = Except.error (str "Invalid ZIP structure") := by
    rw [validateZipFile, if_neg hmiss]
  refine ⟨?_, ?_, ?_, ?_⟩
  · simp only [handleZipFile, hval, hnc, Bool.false_eq_true, if_false,
      writeImportLog_records]
  · simp only [handleZipFile, hval, hnc, Bool.false_eq_true, if_false,
      writeImportLog_archives]
  · intro p hp
    simp only [handleZipFile, hval, hnc, Bool.false_eq_true, if_false]
    rw [writeImportLog_vault_frame ctx fileName _ p hp]
  · intro hf hw
    simp only [handleZipFile, hval, hnc, Bool.false_eq_true, if_false]
    apply writeImportLog_report ctx fileName _
      (str "Error handling zip file") (str "Invalid ZIP structure")
      (by simp [ImportLog.addError, emptyLog]) hf
    exact hw

theorem C7_invalid_archive_aborts_witness :
    (handleZipFile ctx0 false (str "h") (str "a.zip") [str "x"] [] []
        st0).conversationRecords = [] ∧
    ∃ p content, ((ctx0.archiveFolder ++ str "/logs") ++ str "/") <+: p ∧
      lookupRec (handleZipFile ctx0 false (str "h") (str "a.zip") [str "x"] [] []
        st0).vault p = some content ∧
      (str "Invalid ZIP structure") <:+: content := by
  have h := C7_invalid_archive_aborts ctx0 false (str "h") (str "a.zip") [str "x"] [] []
    st0 (by decide) rfl
  exact ⟨h.1.trans rfl, h.2.2.2 rfl rfl⟩

/-! ## Round trip of rendered messages and UID markers -/

theorem natChars_no_lt (t : Nat) : '<' ∉ natChars t :=
  fun h => (digits_tame _ (natChars_digits t _ h)).1 rfl

theorem marker_prefix_head {c : Char} {r : Str}
    (h : (str "<!-- UID: ").isPrefixOf (c :: r) = true) : c = '<' := by
  rw [show str "<!-- UID: " = '<' :: str "!-- UID: " from rfl, List.isPrefixOf] at h
  cases hcv : ('<' == c) with
  | true => exact (beq_iff_eq.mp hcv).symm
  | false => rw [hcv] at h; simp at h

theorem terminator_prefix_head {c : Char} {r : Str}
    (h : (str " -->").isPrefixOf (c :: r) = true) : c = ' ' := by
  rw [show str " -->" = ' ' :: str "-->" from rfl, List.isPrefixOf] at h
  cases hcv : (' ' == c) with
  | true => exact (beq_iff_eq.mp hcv).symm
  | false => rw [hcv] at h; simp at h

/-- Scanning past a chunk with no `<` finds no marker in it. -/
theorem extract_append_clean (l : Str) (rest : Str) (h : '<' ∉ l) :
    extractMessageUIDsFromNote (l ++ rest) = extractMessageUIDsFromNote rest := by
  induction l with
  | nil => rfl
  | cons c l' ih =>
      have hc : c ≠ '<' := fun e => h (e ▸ List.mem_cons_self c l')
      have hpref : (str "<!-- UID: ").isPrefixOf (c :: (l' ++ rest)) = false := by
        cases hb : (str "<!-- UID: ").isPrefixOf (c :: (l' ++ rest)) with
        | true => exact absurd (marker_prefix_head hb) hc
        | false => rfl
      rw [show (c :: l') ++ rest = c :: (l' ++ rest) from rfl, extractMessageUIDsFromNote]
      simp only [List.length_cons]
      rw [extractUIDsAux]
      simp only [hpref, Bool.false_eq_true, if_false]
      exact ih (fun hm => h (List.mem_cons_of_mem c hm))

theorem findCapture_run (rest : Str) :
    ∀ (uid acc : Str), ' ' ∉ uid → '\n' ∉ uid →
      findCapture (uid ++ (str " -->" ++ rest)) acc = some (acc.reverse ++ uid, rest) := by
  intro uid
  induction uid with
  | nil =>
      intro acc _ _
      rw [List.nil_append, show str " -->" ++ rest = ' ' :: (str "-->" ++ rest) from rfl,
        findCapture]
      have hpref : (str " -->").isPrefixOf (' ' :: (str "-->" ++ rest)) = true := by
        apply List.isPrefixOf_iff_prefix.mpr
        exact List.prefix_append (str " -->") rest
      rw [if_pos hpref]
      have hd : List.drop 4 (' ' :: (str "-->" ++ rest)) = rest := by
        rw [show (' ' :: (str "-->" ++ rest)) = str " -->" ++ rest from rfl,
          show (4 : Nat) = (str " -->").length from rfl, List.drop_left]
      simp [hd]
  | cons c u' ih =>
      intro acc hsp hnl
      have hc : c ≠ ' ' := fun e => hsp (e ▸ List.mem_cons_self c u')
      have hcn : c ≠ '\n' := fun e => hnl (e ▸ List.mem_cons_self c u')
      rw [show (c :: u') ++ (str " -->" ++ rest) = c :: (u' ++ (str " -->" ++ rest)) from rfl,
        findCapture]
      have hpref : (str " -->").isPrefixOf (c :: (u' ++ (str " -->" ++ rest))) = false := by
        cases hb : (str " -->").isPrefixOf (c :: (u' ++ (str " -->" ++ rest))) with
        | true => exact absurd (terminator_prefix_head hb) hc
        | false => rfl
      rw [if_neg (by simp [hpref]), if_neg hcn,
        ih (c :: acc) (fun hm => hsp (List.mem_cons_of_mem c hm))
          (fun hm => hnl (List.mem_cons_of_mem c hm))]
      simp

/-- Scanning a marker at the head of the text captures exactly the embedded
identifier (no space or newline in it) and resumes after the terminator. -/
theorem extract_marker (uid rest : Str) (hsp : ' ' ∉ uid) (hnl : '\n' ∉ uid) :
    extractMessageUIDsFromNote (str "<!-- UID: " ++ (uid ++ (str " -->" ++ rest))) =
      uid :: extractMessageUIDsFromNote rest := by
  rw [show str "<!-- UID: " ++ (uid ++ (str " -->" ++ rest)) =
      '<' :: (str "!-- UID: " ++ (uid ++ (str " -->" ++ rest))) from rfl,
    extractMessageUIDsFromNote]
  simp only [List.length_cons]
  rw [extractUIDsAux]
  have hpref : (str "<!-- UID: ").isPrefixOf
      ('<' :: (str "!-- UID: " ++ (uid ++ (str " -->" ++ rest)))) = true := by
    apply List.isPrefixOf_iff_prefix.mpr
    exact List.prefix_append (str "<!-- UID: ") (uid ++ (str " -->" ++ rest))
  have hd : List.drop 10 ('<' :: (str "!-- UID: " ++ (uid ++ (str " -->" ++ rest)))) =
      uid ++ (str " -->" ++ rest) := by
    rw [show ('<' :: (str "!-- UID: " ++ (uid ++ (str " -->" ++ rest)))) =
        str "<!-- UID: " ++ (uid ++ (str " -->" ++ rest)) from rfl,
      show (10 : Nat) = (str "<!-- UID: ").length from rfl, List.drop_left]
  simp only [hpref, if_true, hd]
  rw [findCapture_run rest uid [] hsp hnl]
  simp only [List.reverse_nil, List.nil_append]
  show uid :: extractUIDsAux (str "!-- UID: " ++ (uid ++ (str " -->" ++ rest))).length rest =
    uid :: extractMessageUIDsFromNote rest
  refine congrArg (fun l => uid :: l) ?_
  apply extractUIDsAux_fuel
  · simp only [List.length_append]
    omega
  · exact le_refl _

theorem not_mem_append {c : Char} {a b : Str} (ha : c ∉ a) (hb : c ∉ b) : c ∉ a ++ b := by
  intro h
  rcases List.mem_append.mp h with h | h
  · exact ha h
  · exact hb h

theorem formatTimestamp_no_lt (t : Nat) (k : TsKind) : '<' ∉ formatTimestamp t k :=
  natChars_no_lt t

/-- The quoted body rendered from `<`-free text segments is `<`-free. -/
theorem quotedBody_clean (q : Str) (hq : '<' ∉ q) (ps : List Str)
    (hp : ∀ p ∈ ps, '<' ∉ p) :
    '<' ∉ List.intercalate (str "\n")
      ((splitLines (List.intercalate (str "\n") ps)).map (fun line => q ++ str " " ++ line)) := by
  intro h
  rcases mem_of_mem_intercalate _ _ '<' h with h1 | ⟨x, hx, hcx⟩
  · revert h1; decide
  · obtain ⟨line, hline, hxeq⟩ := List.mem_map.mp hx
    subst hxeq
    rcases List.mem_append.mp hcx with h2 | h2
    · rcases List.mem_append.mp h2 with h3 | h3
      · exact hq h3
      · revert h3; decide
    · have hmem : '<' ∈ List.intercalate (str "\n") ps :=
        mem_of_mem_splitLines _ line hline '<' h2
      rcases mem_of_mem_intercalate _ _ '<' hmem with h4 | ⟨p, hp2, hcp⟩
      · revert h4; decide
      · exact hp p hp2 hcp

/-- Extraction through one rendered block: a `<`-free prefix, the marker with
its identifier, a `<`-free suffix. -/
theorem extract_block (pre uid post R : Str) (hpre : '<' ∉ pre) (hpost : '<' ∉ post)
    (hsp : ' ' ∉ uid) (hnl : '\n' ∉ uid) :
    extractMessageUIDsFromNote
        ((pre ++ (str "<!-- UID: " ++ (uid ++ (str " -->" ++ post)))) ++ R) =
      uid :: extractMessageUIDsFromNote R := by
  rw [List.append_assoc pre _ R, extract_append_clean pre _ hpre]
  simp only [List.append_assoc]
  rw [extract_marker uid (post ++ R) hsp hnl, extract_append_clean post R hpost]

/-- A rendered message block is a `<`-free prefix, then the UID marker around
the (possibly defaulted) identifier, then a `<`-free suffix. -/
theorem formatMessage_shape (now : Nat) (m : ChatMessage) (r : Str)
    (ha : m.authorRole = some r) (ps : List Str) (hps : m.parts = some ps)
    (hlen : ps.length ≠ 0) (hp : ∀ p ∈ ps, '<' ∉ p) :
    ∃ pre post,
      formatMessage now m =
        pre ++ (str "<!-- UID: " ++
          ((if m.id.isEmpty then str "unknown" else m.id) ++ (str " -->" ++ post))) ∧
      '<' ∉ pre ∧ '<' ∉ post := by
  have hUC : (str "User" = str "ChatGPT") = False := by simp [str]
  have hUU : (str "User" = str "User") = True := eq_true rfl
  have hlen' : (ps.length ≠ 0) = True := eq_true hlen
  by_cases hr : r = str "user"
  · refine ⟨(str "###" ++ str " " ++ str "User" ++ str ", on " ++
        (formatTimestamp (if m.create_time = 0 then now else m.create_time) .date ++
          str " at " ++
          formatTimestamp (if m.create_time = 0 then now else m.create_time) .time) ++
        str ";\n" ++
        List.intercalate (str "\n")
          ((splitLines (List.intercalate (str "\n") ps)).map
            (fun line => str ">" ++ str " " ++ line))) ++ ['\n'],
      ['\n'] ++ str "\n\n", ?_, ?_, ?_⟩
    · simp only [formatMessage, ha, hps, hr, if_true, hUC, hUU, hlen', if_false]
      rw [show str "\n<!-- UID: " = ['\n'] ++ str "<!-- UID: " from rfl,
        show str " -->\n" = str " -->" ++ ['\n'] from rfl]
      simp [List.append_assoc]
    · refine not_mem_append (not_mem_append (not_mem_append (not_mem_append
        (not_mem_append (not_mem_append (by decide) (by decide)) (by decide))
        (not_mem_append (not_mem_append (formatTimestamp_no_lt _ _) (by decide))
          (formatTimestamp_no_lt _ _)))
        (by decide)) (quotedBody_clean (str ">") (by decide) ps hp)) (by decide)
    · decide
  · have hru : (r = str "user") = False := eq_false hr
    have hCC : (str "ChatGPT" = str "ChatGPT") = True := eq_true rfl
    have hCU : (str "ChatGPT" = str "User") = False := by simp [str]
    refine ⟨(str "####" ++ str " " ++ str "ChatGPT" ++ str ", on " ++
        (formatTimestamp (if m.create_time = 0 then now else m.create_time) .date ++
          str " at " ++
          formatTimestamp (if m.create_time = 0 then now else m.create_time) .time) ++
        str ";\n" ++
        List.intercalate (str "\n")
          ((splitLines (List.intercalate (str "\n") ps)).map
            (fun line => str ">>" ++ str " " ++ line))) ++ ['\n'],
      ['\n'] ++ str "\n---\n" ++ str "\n\n", ?_, ?_, ?_⟩
    · simp only [formatMessage, ha, hps, hru, if_true, hCC, hCU, hlen', if_false]
      rw [show str "\n<!-- UID: " = ['\n'] ++ str "<!-- UID: " from rfl,
        show str " -->\n" = str " -->" ++ ['\n'] from rfl]
      simp [List.append_assoc]
    · refine not_mem_append (not_mem_append (not_mem_append (not_mem_append
        (not_mem_append (not_mem_append (by decide) (by decide)) (by decide))
        (not_mem_append (not_mem_append (formatTimestamp_no_lt _ _) (by decide))
          (formatTimestamp_no_lt _ _)))
        (by decide)) (quotedBody_clean (str ">>") (by decide) ps hp)) (by decide)
    · decide

/-- Extraction through one valid rendered block followed by anything. -/
theorem extract_formatMessage_append (now : Nat) (m : ChatMessage) (R : Str)
    (hval : isValidMessage m = true)
    (hidne : m.id ≠ []) (hsp : ' ' ∉ m.id) (hnl : '\n' ∉ m.id)
    (hp : ∀ ps, m.parts = some ps → ∀ p ∈ ps, '<' ∉ p) :
    extractMessageUIDsFromNote (formatMessage now m ++ R) =
      m.id :: extractMessageUIDsFromNote R := by
  rw [isValidMessage] at hval
  cases haa : m.authorRole with
  | none => rw [haa] at hval; simp at hval
  | some r =>
  cases hpp : m.parts with
  | none => rw [haa, hpp] at hval; simp at hval
  | some ps =>
  rw [haa, hpp] at hval
  have hval2 : (!r.isEmpty && ps.any (fun p => !p.isEmpty)) = true := hval
  have hany : ps.any (fun p => !p.isEmpty) = true := by
    cases h1 : (!r.isEmpty) with
    | false => rw [h1] at hval2; simp at hval2
    | true => rw [h1] at hval2; simpa using hval2
  have hlen : ps.length ≠ 0 := by
    cases ps with
    | nil => simp at hany
    | cons a t => simp
  obtain ⟨pre, post, hshape, hpre, hpost⟩ :=
    formatMessage_shape now m r haa ps hpp hlen (hp ps hpp)
  have hempty : m.id.isEmpty = false := by
    cases hid2 : m.id with
    | nil => exact absurd hid2 hidne
    | cons a t => rfl
  rw [hshape, hempty]
  simp only [Bool.false_eq_true, if_false]
  exact extract_block pre m.id post R hpre hpost hsp hnl

/-- Extraction over the whole rendering of the mapping in traversal order. -/
theorem extract_genMsgs (now : Nat) :
    ∀ (l : List (Str × MappingNode)),
      (∀ pr ∈ l, ∃ m, pr.2.message = some m ∧ isValidMessage m = true) →
      (∀ pr ∈ l, ∀ m, pr.2.message = some m →
        m.id ≠ [] ∧ ' ' ∉ m.id ∧ '\n' ∉ m.id) →
      (∀ pr ∈ l, ∀ m, pr.2.message = some m →
        ∀ ps, m.parts = some ps → ∀ p ∈ ps, '<' ∉ p) →
      extractMessageUIDsFromNote (genMsgs now l) =
        l.filterMap (fun pr => Option.map ChatMessage.id pr.2.message) := by
  intro l
  induction l with
  | nil => intro _ _ _; rfl
  | cons pr rest ih =>
      intro hv hid hp
      obtain ⟨k, n⟩ := pr
      obtain ⟨m, hm, hvm⟩ := hv (k, n) (List.mem_cons_self _ _)
      obtain ⟨hne, hsp, hnl⟩ := hid (k, n) (List.mem_cons_self _ _) m hm
      have hm2 : n.message = some m := hm
      have hg : genMsgs now ((k, n) :: rest) =
          formatMessage now m ++ genMsgs now rest := by
        simp [genMsgs, hm2, hvm]
      rw [hg]
      rw [extract_formatMessage_append now m _ hvm hne hsp hnl
        (fun ps hps => hp (k, n) (List.mem_cons_self _ _) m hm ps hps)]
      rw [ih (fun q hq => hv q (List.mem_cons_of_mem _ hq))
        (fun q hq => hid q (List.mem_cons_of_mem _ hq))
        (fun q hq => hp q (List.mem_cons_of_mem _ hq))]
      simp [List.filterMap_cons, hm2]

/-- C6 (amended): rendering a conversation whose mapping nodes all carry
valid messages with well-formed identifiers (nonempty, no space or newline)
and `<`-free text segments, then extracting the UID markers, recovers
exactly the message identifiers in the mapping's traversal order. -/
theorem C6_render_extract_roundtrip (now : Nat) (chat : Chat)
    (hv : ∀ pr ∈ chat.mapping, ∃ m, pr.2.message = some m ∧ isValidMessage m = true)
    (hid : ∀ pr ∈ chat.mapping, ∀ m, pr.2.message = some m →
      m.id ≠ [] ∧ ' ' ∉ m.id ∧ '\n' ∉ m.id)
    (hp : ∀ pr ∈ chat.mapping, ∀ m, pr.2.message = some m →
      ∀ ps, m.parts = some ps → ∀ p ∈ ps, '<' ∉ p) :
    extractMessageUIDsFromNote (generateMessagesContent now chat) =
      chat.mapping.filterMap (fun pr => Option.map ChatMessage.id pr.2.message) :=
  extract_genMsgs now chat.mapping hv hid hp

theorem C6_render_extract_roundtrip_witness :
    extractMessageUIDsFromNote (generateMessagesContent 9 chat0) = [str "m1"] := by
  have h := C6_render_extract_roundtrip 9 chat0
    (fun pr hpr => by
      rw [List.mem_singleton.mp hpr]
      exact ⟨msg0, rfl, by decide⟩)
    (fun pr hpr m hm => by
      rw [List.mem_singleton.mp hpr] at hm
      have hm2 : m = msg0 := (Option.some.inj hm).symm
      subst hm2
      exact ⟨by decide, by decide, by decide⟩)
    (fun pr hpr m hm ps hps p hpmem => by
      rw [List.mem_singleton.mp hpr] at hm
      have hm2 : m = msg0 := (Option.some.inj hm).symm
      subst hm2
      have hps2 : ps = [str "hi"] := Option.some.inj hps.symm
      subst hps2
      have hp3 : p = str "hi" := List.mem_singleton.mp hpmem
      subst hp3
      decide)
  rw [h]
  decide

def msgInj : ChatMessage :=
  { id := str "mI", authorRole := some (str "user"), create_time := 5,
    parts := some [str "<!-- UID: zzz -->"] }

def chatInj : Chat :=
  { id := str "c6", title := str "T", create_time := 1, update_time := 2,
    mapping := [(str "mI", { id := str "mI", message := some msgInj })] }

/-- C6 counterexample: a single valid message whose text segment contains a
forged UID marker makes extraction return the forged identifier in addition
to the real one, so the round trip fails as universally stated. -/
theorem C6_counterexample_marker_injection :
    isValidMessage msgInj = true ∧
    extractMessageUIDsFromNote (generateMessagesContent 0 chatInj) =
      [str "zzz", str "mI"] ∧
    chatInj.mapping.filterMap (fun pr => Option.map ChatMessage.id pr.2.message) =
      [str "mI"] := by
  refine ⟨rfl, ?_, rfl⟩
  decide
